import Mathlib

/-!
Shallow embedding of the circuit-project simulation core:

* `src/public/lib/circuit.js` — the `Circuit` class (delta-cycle evaluation,
  cloning, truth tables, Quine–McCluskey minimizer, Petrick's method);
* `src/unnamed/part_006` (nodes.js) — the node variants `LiteralNode`,
  `InputNode`, `ClockNode`, `GateNode`, `FeedbackNode`, `CompositeNode`,
  `SubCircuitOutputNode`;
* `src/unnamed/part_007` (scheduler.js) — the `Scheduler`;
* `src/public/lib/common-gates.js` — `STANDARD_GATES`.

Modelling conventions:
* The mutable JS object graph is an arena: a circuit holds `nodes : List (NodeSpec Circuit)`
  and every JS object reference is the node's index in that list.  Object identity is
  index identity.  Node structure and node mutable state (`lastValue`, `currentValue`,
  a composite's cache and private sub-circuit) live together in `NodeSpec`, as they do
  in the JS objects.
* JS numbers are modelled as `Int` (the engine only ever produces 0/1 bits, per the
  spec "bit = integer 0 or 1"; JS 32-bit coercion of bitwise operators is invisible
  on bits).
* Scheduler callbacks capture a value and assign it to one node field; they are
  modelled as first-order `EventAction` data.  An event's `targetTick` is
  `Option Nat`: `none` models a JS `undefined` tick (which `clone(true)` produces,
  because it reads the non-existent `event.tick` property of events that store
  `targetTick`); `consumeEventsForTick`/`hasEventsForTick` compare with `===`, so a
  `none` target matches no tick, exactly like `undefined`.
* Unbounded JS recursion and `while (true)` loops take an explicit `fuel : Nat`;
  `EvalError.fuelExhausted` marks exhaustion (the JS engine would instead overflow the
  stack on cyclic graphs, or loop; every theorem conditioned on an `Except.ok` result
  is insensitive to the chosen fuel).
* JS exceptions are `Except EvalError`.
-/

namespace CircuitProj

/-- Errors thrown by the JS source (plus modelling devices, marked as such). -/
inductive EvalError where
  /-- Modelling device: recursion fuel ran out. -/
  | fuelExhausted
  /-- GateNode.evaluate: "Gate ... is not registered." -/
  | unregisteredGate
  /-- STANDARD_GATES.NOT: "NOT gate requires exactly one input". -/
  | arityError
  /-- SubCircuitOutputNode: "requires a CompositeNode as its input" (and the
      modelled crash of `compositeNode.evaluate` when the reference is not a composite). -/
  | notComposite
  /-- SubCircuitOutputNode.evaluate: "Output index ... is out of bounds ...". -/
  | indexOutOfBounds
  /-- Modelling device: a CompositeNode was evaluated where a scalar bit is expected
      (JS would return the whole output array as the node's "bit"). -/
  | compositeAsScalar
  /-- Modelling device: a node id outside the arena (JS would have thrown on a bad
      object reference much earlier). -/
  | invalidNodeRef
  /-- Modelling device: `evaluateUntilStable` with `maxOuter = 0` returns JS `null`. -/
  | nullStable
  /-- petrickMethod: "Unsolvable: Some minterms are not covered by any remaining
      prime implicants." -/
  | infeasibleCover
  /-- findMinimalPrimeCover: "Petrick's method failed: No minimal cover found."
      (also models the crash on an empty clause list). -/
  | petrickEmpty
deriving DecidableEq, Repr

/-- A registered gate function `bits[] → bit` (JS functions can throw, e.g. NOT's
arity check). -/
def GateFn : Type := List Int → Except EvalError Int

/-- The assignment a scheduled callback performs when it fires.  Gate delay handling
captures `() => { this.lastValue = newValue }`; feedback delay handling captures
`() => { update.node.currentValue = update.value }`. -/
inductive EventAction where
  | setGateLast (nodeId : Nat) (value : Int)
  | setFeedbackValue (nodeId : Nat) (value : Int)
deriving DecidableEq, Repr

/-- A scheduler entry `{ targetTick, callback }` (the `description` string is
display-only and omitted).  `target = none` models an `undefined` target tick. -/
structure Event where
  target : Option Nat
  action : EventAction
deriving DecidableEq, Repr

/-- One `subHistory` entry pushed by `Circuit.evaluate`. -/
structure DeltaRecord where
  deltaCycle : Nat
  queueBefore : List Event
  consumedEvents : List Event
  queueAfter : List Event
  outputs : List Int
deriving DecidableEq, Repr

/-- One `history` entry pushed by `Circuit.evaluate`. -/
structure TickRecord where
  tick : Nat
  subHistory : List DeltaRecord
  unstable : Bool
deriving DecidableEq, Repr

/-- The node variants of nodes.js, parametric in the circuit type so that
`CompositeNode` can hold its private sub-circuit clone.  Node references are arena
indices.  Display-only `name` fields are omitted. -/
inductive NodeSpec (α : Type) where
  | literal (value : Int)
  | input (index : Nat)
  | clock
  | gate (gateType : String) (inputNodes : List Nat) (delay : Nat) (lastValue : Int)
  | feedback (inputNode : Option Nat) (initialValue : Int) (currentValue : Int) (delay : Nat)
  | composite (subCircuit : α) (inputNodes : List Nat) (lastEvaluationTick : Int)
      (cachedOutputs : List Int)
  | subCircuitOutput (compositeNode : Nat) (outputIndex : Nat)

/-- The `Circuit` class state: constructor fields of circuit.js plus the arena of
nodes (a recursive type, because composites embed private sub-circuits). -/
inductive Circuit : Type where
  | mk (name : String)
      (rootNodes : List Nat)
      (nodes : List (NodeSpec Circuit))
      (totalTicks : Nat)
      (currentTick : Nat)
      (clock : Int)
      (prevClock : Int)
      (feedbackNodes : List Nat)
      (gateRegistry : String → Option GateFn)
      (events : List Event)
      (history : List TickRecord)

def Circuit.name : Circuit → String
  | .mk n _ _ _ _ _ _ _ _ _ _ => n

def Circuit.rootNodes : Circuit → List Nat
  | .mk _ r _ _ _ _ _ _ _ _ _ => r

def Circuit.nodes : Circuit → List (NodeSpec Circuit)
  | .mk _ _ ns _ _ _ _ _ _ _ _ => ns

def Circuit.totalTicks : Circuit → Nat
  | .mk _ _ _ t _ _ _ _ _ _ _ => t

def Circuit.currentTick : Circuit → Nat
  | .mk _ _ _ _ ct _ _ _ _ _ _ => ct

def Circuit.clock : Circuit → Int
  | .mk _ _ _ _ _ ck _ _ _ _ _ => ck

def Circuit.prevClock : Circuit → Int
  | .mk _ _ _ _ _ _ pk _ _ _ _ => pk

def Circuit.feedbackNodes : Circuit → List Nat
  | .mk _ _ _ _ _ _ _ fb _ _ _ => fb

def Circuit.gateRegistry : Circuit → (String → Option GateFn)
  | .mk _ _ _ _ _ _ _ _ reg _ _ => reg

def Circuit.events : Circuit → List Event
  | .mk _ _ _ _ _ _ _ _ _ ev _ => ev

def Circuit.history : Circuit → List TickRecord
  | .mk _ _ _ _ _ _ _ _ _ _ h => h

def Circuit.withNodes : Circuit → List (NodeSpec Circuit) → Circuit
  | .mk n r _ t ct ck pk fb reg ev h, ns => .mk n r ns t ct ck pk fb reg ev h

def Circuit.withTotalTicks : Circuit → Nat → Circuit
  | .mk n r ns _ ct ck pk fb reg ev h, t => .mk n r ns t ct ck pk fb reg ev h

def Circuit.withCurrentTick : Circuit → Nat → Circuit
  | .mk n r ns t _ ck pk fb reg ev h, ct => .mk n r ns t ct ck pk fb reg ev h

def Circuit.withClock : Circuit → Int → Circuit
  | .mk n r ns t ct _ pk fb reg ev h, ck => .mk n r ns t ct ck pk fb reg ev h

def Circuit.withPrevClock : Circuit → Int → Circuit
  | .mk n r ns t ct ck _ fb reg ev h, pk => .mk n r ns t ct ck pk fb reg ev h

def Circuit.withFeedbackNodes : Circuit → List Nat → Circuit
  | .mk n r ns t ct ck pk _ reg ev h, fb => .mk n r ns t ct ck pk fb reg ev h

def Circuit.withEvents : Circuit → List Event → Circuit
  | .mk n r ns t ct ck pk fb reg _ h, ev => .mk n r ns t ct ck pk fb reg ev h

def Circuit.withHistory : Circuit → List TickRecord → Circuit
  | .mk n r ns t ct ck pk fb reg ev _, h => .mk n r ns t ct ck pk fb reg ev h

/-- `outputLength` — the number of root nodes. -/
def Circuit.outputLength (c : Circuit) : Nat := c.rootNodes.length

/-- `setClock(value)`: shifts `clock` into `prevClock`, then stores the new value. -/
def Circuit.setClock (c : Circuit) (value : Int) : Circuit :=
  (c.withPrevClock c.clock).withClock value

/-- `getClock()`. -/
def Circuit.getClock (c : Circuit) : Int := c.clock

/-- The three strings `getEdgeTrigger()` can return, as an enumeration
("SAME" / "POSITIVE EDGE TRIGGER" / "NEGATIVE EDGE TRIGGER"). -/
inductive EdgeTrigger where
  | same
  | positiveEdgeTrigger
  | negativeEdgeTrigger
deriving DecidableEq, Repr

/-- `getEdgeTrigger()`. -/
def Circuit.getEdgeTrigger (c : Circuit) : EdgeTrigger :=
  if c.clock = c.prevClock then .same
  else if c.clock > c.prevClock then .positiveEdgeTrigger
  else .negativeEdgeTrigger

/-- `registerFeedbackNode(node)`: a guarded push followed by an unconditional push
(transcribed exactly as the source does it). -/
def Circuit.registerFeedbackNode (c : Circuit) (node : Nat) : Circuit :=
  let fbs := c.feedbackNodes
  let fbs := if node ∈ fbs then fbs else fbs ++ [node]
  c.withFeedbackNodes (fbs ++ [node])

/-- Scheduler.scheduleEvent: appends an entry. -/
def scheduleEvent (events : List Event) (target : Option Nat) (action : EventAction) :
    List Event :=
  events ++ [⟨target, action⟩]

/-- Scheduler.consumeEventsForTick: partition into (ready for `tick`, remaining),
both in insertion order. -/
def consumeEventsForTick (events : List Event) (tick : Nat) :
    List Event × List Event :=
  (events.filter (fun e => e.target = some tick),
   events.filter (fun e => ¬ e.target = some tick))

/-- Scheduler.hasEventsForTick. -/
def hasEventsForTick (events : List Event) (tick : Nat) : Bool :=
  events.any (fun e => e.target = some tick)

/-- Look a node up in the arena. -/
def Circuit.getNode (c : Circuit) (id : Nat) : Option (NodeSpec Circuit) :=
  c.nodes[id]?

/-- Overwrite a node in the arena (mutation of one JS object's state). -/
def setNode (c : Circuit) (id : Nat) (nd : NodeSpec Circuit) : Circuit :=
  c.withNodes (c.nodes.set id nd)

/-- `this.lastValue = v` on the gate object with arena index `id`. -/
def setGateLastValue (c : Circuit) (id : Nat) (v : Int) : Circuit :=
  match c.getNode id with
  | some (.gate ty ins d _) => setNode c id (.gate ty ins d v)
  | _ => c

/-- Read `this.lastValue` of the gate object with arena index `id`. -/
def gateLastValue (c : Circuit) (id : Nat) : Int :=
  match c.getNode id with
  | some (.gate _ _ _ last) => last
  | _ => 0

/-- `node.currentValue = v` on the feedback object with arena index `id`. -/
def setFeedbackCurrentValue (c : Circuit) (id : Nat) (v : Int) : Circuit :=
  match c.getNode id with
  | some (.feedback inp init _ d) => setNode c id (.feedback inp init v d)
  | _ => c

/-- Fire one scheduled callback (`e.callback()`). -/
def applyEvent (c : Circuit) (e : Event) : Circuit :=
  match e.action with
  | .setGateLast id v => setGateLastValue c id v
  | .setFeedbackValue id v => setFeedbackCurrentValue c id v

/-- utils.js `arraysEqual` (length check plus element-wise strict equality). -/
def arraysEqual (a b : List Int) : Bool := a = b

/-- Phase 2 of the two-phase feedback update in `Circuit.evaluate`: apply one
captured `{ node, value }` update.  `delay === 0` writes `currentValue` at once;
`delay > 0` schedules the write for `currentTick + delay`.  A `null` entry
(feedback with no driving node) is skipped. -/
def applyFeedbackUpdate (c : Circuit) : Option (Nat × Int) → Circuit
  | none => c
  | some (fb, value) =>
    match c.getNode fb with
    | some (.feedback inp init _ delay) =>
      if delay = 0 then setNode c fb (.feedback inp init value delay)
      else c.withEvents
        (scheduleEvent c.events (some (c.currentTick + delay)) (.setFeedbackValue fb value))
    | _ => c

/-- Apply all captured feedback updates (`feedbackUpdates.forEach(...)`). -/
def applyFeedbackUpdates (c : Circuit) (updates : List (Option (Nat × Int))) : Circuit :=
  updates.foldl applyFeedbackUpdate c

mutual

/-- `node.evaluate(circuit, inputs)` for a scalar-valued node with arena index `id`.
Returns the bit and the circuit after any state effects (gate `lastValue` writes and
delay scheduling). -/
def evalNode : Nat → Circuit → List Int → Nat → Except EvalError (Int × Circuit)
  | 0, _, _, _ => .error .fuelExhausted
  | fuel+1, c, inputs, id =>
    match c.getNode id with
    | none => .error .invalidNodeRef
    | some (.literal value) => .ok (value, c)
    | some (.input index) => .ok (inputs.getD index 0, c)
    | some .clock => .ok (c.clock, c)
    | some (.gate gateType inputNodes delay _) =>
      match c.gateRegistry gateType with
      | none => .error .unregisteredGate
      | some gateFunc => do
        let (childVals, c1) ← evalNodes fuel c inputs inputNodes
        let newValue ← gateFunc childVals
        if delay > 0 then
          let targetTick := c1.currentTick + delay
          let c2 := c1.withEvents
            (scheduleEvent c1.events (some targetTick) (.setGateLast id newValue))
          .ok (gateLastValue c1 id, c2)
        else
          .ok (newValue, setGateLastValue c1 id newValue)
    | some (.feedback _ _ currentValue _) => .ok (currentValue, c)
    | some (.composite _ _ _ _) =>
      -- CompositeNode.evaluate returns the whole output vector; JS would hand that
      -- array to the scalar consumer.  Source-built graphs only reach composites
      -- through SubCircuitOutputNode, so the scalar evaluator rejects this.
      .error .compositeAsScalar
    | some (.subCircuitOutput compositeNode outputIndex) => do
      let (subCircuitOutputs, c1) ← evalCompositeAt fuel c inputs compositeNode
      if outputIndex ≥ subCircuitOutputs.length then .error .indexOutOfBounds
      else .ok (subCircuitOutputs.getD outputIndex 0, c1)
termination_by structural fuel _ _ _ => fuel

/-- Evaluate a list of node references left to right (JS `.map` with in-place
mutation), threading the circuit state. -/
def evalNodes : Nat → Circuit → List Int → List Nat → Except EvalError (List Int × Circuit)
  | 0, _, _, _ => .error .fuelExhausted
  | fuel+1, c, inputs, ids =>
    match ids with
    | [] => .ok ([], c)
    | id :: rest => do
      let (v, c1) ← evalNode fuel c inputs id
      let (vs, c2) ← evalNodes fuel c1 inputs rest
      .ok (v :: vs, c2)
termination_by structural fuel _ _ _ => fuel

/-- `CompositeNode.evaluate(parentCircuit, parentInputs)` on the composite with
arena index `id`: per-tick cache, then bind inputs, drive the private sub-circuit
to a stable point, and cache the result keyed by the parent's `currentTick`. -/
def evalCompositeAt : Nat → Circuit → List Int → Nat → Except EvalError (List Int × Circuit)
  | 0, _, _, _ => .error .fuelExhausted
  | fuel+1, c, inputs, id =>
    match c.getNode id with
    | some (.composite _ inputNodes lastEvaluationTick cachedOutputs) =>
      if lastEvaluationTick = (c.currentTick : Int) then .ok (cachedOutputs, c)
      else do
        let (subCircuitInputs, c1) ← evalNodes fuel c inputs inputNodes
        match c1.getNode id with
        | some (.composite subCircuit ins _ _) => do
          let (outs, sub') ← evaluateUntilStable fuel subCircuit subCircuitInputs 100
          let c2 := setNode c1 id (.composite sub' ins (c1.currentTick : Int) outs)
          .ok (outs, c2)
        | _ => .error .notComposite
    | _ => .error .notComposite
termination_by structural fuel _ _ _ => fuel

/-- Phase 1 of the two-phase feedback update: for each registered feedback node,
evaluate its driving expression (with the current circuit state, threading any
side effects) and capture `{ node, value }`; `null` when there is no driving node. -/
def feedbackPhase1 : Nat → Circuit → List Int → List Nat →
    Except EvalError (List (Option (Nat × Int)) × Circuit)
  | 0, _, _, _ => .error .fuelExhausted
  | fuel+1, c, inputs, fbIds =>
    match fbIds with
    | [] => .ok ([], c)
    | fb :: rest =>
      match c.getNode fb with
      | some (.feedback (some inputNode) _ _ _) => do
        let (newValue, c1) ← evalNode fuel c inputs inputNode
        let (updates, c2) ← feedbackPhase1 fuel c1 inputs rest
        .ok (some (fb, newValue) :: updates, c2)
      | _ => do
        let (updates, c1) ← feedbackPhase1 fuel c inputs rest
        .ok (none :: updates, c1)
termination_by structural fuel _ _ _ => fuel

/-- The delta-cycle `while` loop of `Circuit.evaluate`: runs while events remain
for `currentTick` and `iteration < maxDeltaCycles`.  Returns the final outputs,
circuit and `subHistory`. -/
def deltaLoop : Nat → Circuit → List Int → List Int → List DeltaRecord → Nat → Nat →
    Except EvalError (List Int × Circuit × List DeltaRecord)
  | 0, _, _, _, _, _, _ => .error .fuelExhausted
  | fuel+1, c, inputs, oldOutputs, subHistory, iteration, maxDeltaCycles =>
    if hasEventsForTick c.events c.currentTick ∧ iteration < maxDeltaCycles then do
      let iteration' := iteration + 1
      let queueBeforeLoop := c.events
      let consumedPair := consumeEventsForTick c.events c.currentTick
      let c := consumedPair.1.foldl applyEvent (c.withEvents consumedPair.2)
      let (updates, c) ← feedbackPhase1 fuel c inputs c.feedbackNodes
      let c := applyFeedbackUpdates c updates
      let (newOutputs, c) ← evalNodes fuel c inputs c.rootNodes
      if arraysEqual oldOutputs newOutputs then
        .ok (oldOutputs, c, subHistory)
      else
        deltaLoop fuel c inputs newOutputs
          (subHistory ++ [⟨iteration', queueBeforeLoop, consumedPair.1, c.events, newOutputs⟩])
          iteration' maxDeltaCycles
    else .ok (oldOutputs, c, subHistory)
termination_by structural fuel _ _ _ => fuel

/-- `Circuit.evaluate(inputs, maxDeltaCycles)`: one tick.  (The `console.warn` on a
mismatched input length has no state effect and is omitted.) -/
def evaluateCircuit : Nat → Circuit → List Int → Nat → Except EvalError (List Int × Circuit)
  | 0, _, _, _ => .error .fuelExhausted
  | fuel+1, c, inputs, maxDeltaCycles => do
    let c := c.withCurrentTick c.totalTicks
    let queueBefore := c.events
    let consumedPair := consumeEventsForTick c.events c.currentTick
    let c := consumedPair.1.foldl applyEvent (c.withEvents consumedPair.2)
    let (feedbackUpdates, c) ← feedbackPhase1 fuel c inputs c.feedbackNodes
    let c := applyFeedbackUpdates c feedbackUpdates
    let (oldOutputs, c) ← evalNodes fuel c inputs c.rootNodes
    let firstRecord : DeltaRecord := ⟨1, queueBefore, consumedPair.1, c.events, oldOutputs⟩
    let (finalOutputs, c, subHistory) ←
      deltaLoop fuel c inputs oldOutputs [firstRecord] 1 maxDeltaCycles
    let isStable := ! hasEventsForTick c.events c.currentTick
    let c := c.withHistory (c.history ++ [⟨c.totalTicks, subHistory, ! isStable⟩])
    let c := c.withTotalTicks (c.totalTicks + 1)
    .ok (finalOutputs, c)
termination_by structural fuel _ _ _ => fuel

/-- The `for` loop of `evaluateUntilStable`: repeatedly `tick(inputs)` until two
consecutive outputs agree or `remaining` iterations are exhausted (then the last
output is returned; with no iteration at all JS would return `null`). -/
def untilStableGo : Nat → Circuit → List Int → Nat → Option (List Int) →
    Except EvalError (List Int × Circuit)
  | 0, _, _, _, _ => .error .fuelExhausted
  | fuel+1, c, inputs, remaining, old =>
    match remaining with
    | 0 =>
      match old with
      | some o => .ok (o, c)
      | none => .error .nullStable
    | r+1 => do
      let (out, c1) ← evaluateCircuit fuel c inputs 50
      match old with
      | some o =>
        if arraysEqual o out then .ok (out, c1)
        else untilStableGo fuel c1 inputs r (some out)
      | none => untilStableGo fuel c1 inputs r (some out)
termination_by structural fuel _ _ _ => fuel

/-- `Circuit.evaluateUntilStable(inputs, maxOuter = 100)`. -/
def evaluateUntilStable : Nat → Circuit → List Int → Nat →
    Except EvalError (List Int × Circuit)
  | 0, _, _, _ => .error .fuelExhausted
  | fuel+1, c, inputs, maxOuter => untilStableGo fuel c inputs maxOuter none
termination_by structural fuel _ _ _ => fuel

end

/-- `FeedbackNode.computeFeedback(circuit, inputs)`: evaluate the driving node and
apply the same delay rule as the two-phase update (no-op without a driving node). -/
def computeFeedback (fuel : Nat) (c : Circuit) (inputs : List Int) (id : Nat) :
    Except EvalError Circuit :=
  match c.getNode id with
  | some (.feedback (some inputNode) _ _ _) => do
    let (newValue, c1) ← evalNode fuel c inputs inputNode
    .ok (applyFeedbackUpdate c1 (some (id, newValue)))
  | _ => .ok c

/-- The node references `#computeInputLength` descends through: a gate's children,
a feedback node's driving node (when present), a composite's input bindings, and a
sub-circuit-output's composite. -/
def NodeSpec.walkChildren : NodeSpec Circuit → List Nat
  | .gate _ inputNodes _ _ => inputNodes
  | .feedback inputNode _ _ _ => inputNode.toList
  | .composite _ inputNodes _ _ => inputNodes
  | .subCircuitOutput compositeNode _ => [compositeNode]
  | _ => []

/-- `Circuit.#computeInputLength(node, visited)`.  Values live in `WithBot ℤ`:
`⊥` is JS `-Infinity` (missing or already-visited node), `-1` the initial
`highest`.  The JS `Set` is mutated in place and shared along the whole walk, so
the visited list threads through the recursion and is returned.  The `fuel`
argument is a modelling device for the unbounded JS recursion; since each
recursive call first adds a fresh valid id to `visited`, `c.nodes.length + 1`
fuel is always enough (proved below). -/
def computeInputLength (c : Circuit) : Nat → Nat → List Nat → (WithBot ℤ × List Nat)
  | 0, _, visited => (⊥, visited)
  | fuel+1, id, visited =>
    match c.getNode id with
    | none => (⊥, visited)
    | some nd =>
      if id ∈ visited then (⊥, visited)
      else
        let visited' := id :: visited
        match nd with
        | .input index => (((index : ℤ) : WithBot ℤ), visited')
        | _ =>
          nd.walkChildren.foldl
            (fun acc childId =>
              let r := computeInputLength c fuel childId acc.2
              (max acc.1 r.1, r.2))
            ((((-1 : ℤ) : WithBot ℤ)), visited')
termination_by structural fuel _ _ => fuel

/-- `get inputLength`: fold the walk over all roots (each with a fresh visited
set), then `highest < 0 ? 0 : highest + 1`. -/
def Circuit.inputLength (c : Circuit) : Nat :=
  let highest := c.rootNodes.foldl
    (fun acc root => max acc (computeInputLength c (c.nodes.length + 1) root []).1)
    (((-1 : ℤ) : WithBot ℤ))
  if highest < 0 then 0 else (highest.unbot' 0 + 1).toNat

mutual

/-- `Circuit.#cloneNode`, at the level of one arena entry.  Node references (arena
indices) are stable across a clone, which is exactly the identity preservation the
JS `nodeMap` provides.  For a `GateNode`, `lastValue` is copied only when
`preserveState`; for a `FeedbackNode`, the constructor receives
`preserveState ? currentValue : initialValue` as its initial value (so a
state-preserving clone also rebases `initialValue`, as the source does); for a
`CompositeNode`, the constructor re-clones the private sub-circuit with the
default `preserveState = false` and resets the cache. -/
def cloneNodeData : Nat → Bool → NodeSpec Circuit → Except EvalError (NodeSpec Circuit)
  | _, _, .literal value => .ok (.literal value)
  | _, _, .input index => .ok (.input index)
  | _, _, .clock => .ok .clock
  | _, preserveState, .gate gateType inputNodes delay lastValue =>
    .ok (.gate gateType inputNodes delay (if preserveState then lastValue else 0))
  | _, preserveState, .feedback inputNode initialValue currentValue delay =>
    let feedbackValue := if preserveState then currentValue else initialValue
    .ok (.feedback inputNode feedbackValue feedbackValue delay)
  | 0, _, .composite _ _ _ _ => .error .fuelExhausted
  | fuel+1, _, .composite subCircuit inputNodes _ _ => do
    let sub' ← cloneCircuit fuel false subCircuit
    .ok (.composite sub' inputNodes (-1) [])
  | _, _, .subCircuitOutput compositeNode outputIndex =>
    .ok (.subCircuitOutput compositeNode outputIndex)
termination_by structural fuel _ _ => fuel

/-- `Circuit.clone(preserveState)`.  Without `preserveState` the fresh-constructor
state applies (tick counters 0, empty scheduler, empty history; `clock`/`prevClock`
are copied in both cases).  With `preserveState`, tick counters and history are
carried over and each pending scheduler entry is re-scheduled via
`scheduleEvent(event.tick, event.callback)` — but scheduler entries store
`targetTick`, not `tick`, so the copied entry's target is `undefined` (`none`);
its callback moreover still closes over the *original* circuit's node objects
(observationally irrelevant here because a `none` target never fires). -/
def cloneCircuit : Nat → Bool → Circuit → Except EvalError Circuit
  | 0, _, _ => .error .fuelExhausted
  | fuel+1, preserveState, c => do
    let nodes' ← c.nodes.mapM (cloneNodeData fuel preserveState)
    if preserveState then
      .ok (.mk c.name c.rootNodes nodes' c.totalTicks c.currentTick c.clock c.prevClock
        c.feedbackNodes c.gateRegistry (c.events.map (fun e => ⟨none, e.action⟩)) c.history)
    else
      .ok (.mk c.name c.rootNodes nodes' 0 0 c.clock c.prevClock
        c.feedbackNodes c.gateRegistry [] [])
termination_by structural fuel _ _ => fuel

end

/-- STANDARD_GATES.OR: `inputs.reduce((acc, bit) => acc | bit, 0)`. -/
def stdOR : GateFn := fun inputs => .ok (inputs.foldl (fun acc bit => acc.lor bit) 0)

/-- STANDARD_GATES.AND: `inputs.reduce((acc, bit) => acc & bit, 1)`. -/
def stdAND : GateFn := fun inputs => .ok (inputs.foldl (fun acc bit => acc.land bit) 1)

/-- STANDARD_GATES.NOT: exactly one input, `input[0] ? 0 : 1` (JS truthiness of a
number is "nonzero"). -/
def stdNOT : GateFn := fun inputs =>
  match inputs with
  | [x] => .ok (if x = 0 then 1 else 0)
  | _ => .error .arityError

/-- STANDARD_GATES.XOR: `inputs.reduce((acc, bit) => acc ^ bit, 0)`. -/
def stdXOR : GateFn := fun inputs => .ok (inputs.foldl (fun acc bit => acc.xor bit) 0)

/-- The registry `simplify()` installs on its result: AND, OR and NOT from
STANDARD_GATES (XOR is not registered there). -/
def simplifiedRegistry : String → Option GateFn := fun gateName =>
  if gateName = "AND" then some stdAND
  else if gateName = "OR" then some stdOR
  else if gateName = "NOT" then some stdNOT
  else none

/-- `Circuit.#numToBitArray(num, width)`: binary digits MSB-first, left-padded with
zeros to `width`. -/
def numToBitArray (num : Nat) (width : Nat) : List Int :=
  let digits := (Nat.toDigits 2 num).map (fun ch => ((ch.toNat - '0'.toNat : Nat) : Int))
  List.replicate (width - digits.length) 0 ++ digits

/-- One truth-table row `{ inputs, outputs }`. -/
structure TTRow where
  inputs : List Int
  outputs : List Int
deriving DecidableEq, Repr

/-- `Circuit.generateTruthTable(clockLevel)`: for each of the `2^inputLength`
combinations, clone fresh (`preserveState = false`), optionally set the clock when
`clockLevel` is literally 0 or 1, and evaluate once. -/
def generateTruthTable (fuel : Nat) (c : Circuit) (clockLevel : Option Int) :
    Except EvalError (List TTRow) := do
  let n := c.inputLength
  (List.range (2 ^ n)).mapM (fun i => do
    let inputs := numToBitArray i n
    let testCircuit ← cloneCircuit fuel false c
    let testCircuit :=
      match clockLevel with
      | some level => if level = 0 ∨ level = 1 then testCircuit.setClock level else testCircuit
      | none => testCircuit
    let (finalOutputs, _) ← evaluateCircuit fuel testCircuit inputs 50
    .ok (⟨inputs, finalOutputs⟩ : TTRow))

/-- A term cell of the minimizer: a JS number bit or the string `"-"` ("don't
care").  Strict `===` equality across the two kinds is `Cell` equality. -/
inductive Cell where
  | bit (b : Int)
  | dash
deriving DecidableEq, Repr

/-- A minimizer term (JS array mixing numbers and `"-"`). -/
abbrev Term : Type := List Cell

/-- `Circuit.#generateMinterms(truthTable, index)`: the input rows whose output
bit at `index` is strictly `1`. -/
def generateMinterms (truthTable : List TTRow) (index : Nat) : List (List Int) :=
  (truthTable.filter (fun row => row.outputs[index]? = some 1)).map (fun row => row.inputs)

/-- The count of set bits of a term (`bit === "-" ? 0 : bit` summed).  Used as a
bucket index; every reachable call sums 0/1 bits, so the `Int.toNat` cast is exact. -/
def onesCount (term : Term) : Nat :=
  (term.foldl (fun sum cell => sum + (match cell with | Cell.dash => 0 | Cell.bit b => b)) 0).toNat

/-- `Circuit.#groupByOnes(terms)`: `width + 1` buckets indexed by count of set
bits, preserving term order within a bucket (out-of-range counts cannot occur on
0/1 bits; `List.set` then drops them like the JS `groups[ones]` crash would). -/
def groupByOnes (terms : List Term) : List (List Term) :=
  match terms with
  | [] => []
  | t0 :: _ =>
    let width := t0.length
    terms.foldl
      (fun groups term =>
        let ones := onesCount term
        groups.set ones (groups.getD ones [] ++ [term]))
      (List.replicate (width + 1) [])

/-- `Circuit.#computeHammingDistance(a, b)`: the number of positions with strictly
different cells.  (The source throws on a length mismatch and short-circuits past
2; all call sites compare equal-width terms against the value 1, for which the
plain count is equivalent.) -/
def computeHammingDistance (a b : Term) : Nat :=
  ((a.zip b).filter (fun p => ¬ p.1 = p.2)).length

/-- `Circuit.#combineTerms(a, b)`: keep equal cells, replace differing positions
with `"-"` (equal widths at every call site). -/
def combineTerms (a b : Term) : Term :=
  (a.zip b).map (fun p => if p.1 = p.2 then p.1 else Cell.dash)

/-- `Circuit.#combineBitDifferences(groupsByOnes)`: merge every pair from adjacent
buckets at Hamming distance exactly 1, in bucket order then term order. -/
def combineBitDifferences (groupsByOnes : List (List Term)) : List Term :=
  (List.range (groupsByOnes.length - 1)).foldl
    (fun combined i =>
      let current := groupsByOnes.getD i []
      let next := groupsByOnes.getD (i + 1) []
      if current = [] ∨ next = [] then combined
      else
        combined ++ current.foldl
          (fun acc term1 =>
            acc ++ (next.filter (fun term2 => computeHammingDistance term1 term2 = 1)).map
              (fun term2 => combineTerms term1 term2))
          [])
    []

/-- `Circuit.#findPrimeImplicants(minTerms)`: iterate group-and-merge, replacing
the whole working set with the merged terms, until no merge occurs.  (`fuel`
bounds the `while (true)` loop; each iteration shrinks the spread of set-bit
counts, so the loop does terminate in the source as well.) -/
def findPrimeImplicants : Nat → List Term → List Term
  | 0, implicants => implicants
  | fuel+1, implicants =>
    let groups := groupByOnes implicants
    let combined := combineBitDifferences groups
    if combined = [] then implicants
    else findPrimeImplicants fuel combined

/-- `Circuit.#findCoverValues(prime)`: expand each `"-"` into a 0 branch and a 1
branch, keeping fixed bits. -/
def findCoverValues (prime : Term) : List (List Int) :=
  prime.foldl
    (fun results cell =>
      match cell with
      | .dash => results.foldl (fun acc seq => acc ++ [seq ++ [0], seq ++ [1]]) []
      | .bit b => results.map (fun seq => seq ++ [b]))
    [[]]

/-- JS `Set.add` on an insertion-ordered list. -/
def addIfAbsent (l : List Nat) (x : Nat) : List Nat :=
  if x ∈ l then l else l ++ [x]

/-- JS `Set.add` for minterm keys.  The source keys maps and sets by
`term.join("")`; on fixed-width lists of single-digit bits the join is injective,
so the list itself serves as the key. -/
def addKeyIfAbsent (l : List (List Int)) (x : List Int) : List (List Int) :=
  if x ∈ l then l else l ++ [x]

/-- `Circuit.#findEssentialPrimes(primes, minterms)`: build the minterm → covering
prime-index map, then collect (in map order, deduplicated) the sole cover of every
singleton entry. -/
def findEssentialPrimes (primes : List Term) (minterms : List (List Int)) : List Term :=
  let coverMap0 : List (List Int × List Nat) := minterms.map (fun term => (term, []))
  let coverMap := primes.enum.foldl
    (fun cmap p =>
      (findCoverValues p.2).foldl
        (fun cmap2 mKey =>
          cmap2.map (fun entry =>
            if entry.1 = mKey then (entry.1, addIfAbsent entry.2 p.1) else entry))
        cmap)
    coverMap0
  let essentialIdxs := coverMap.foldl
    (fun acc entry =>
      match entry.2 with
      | [sole] => addIfAbsent acc sole
      | _ => acc)
    []
  essentialIdxs.map (fun i => primes.getD i [])

/-- `Circuit.#arrayEquals(a, b)` on terms (length plus element-wise strict
equality, i.e. list equality). -/
def termEquals (a b : Term) : Bool := a = b

/-- The JS default `Array.sort()` comparison key: decimal string order. -/
def jsSortNat (l : List Nat) : List Nat :=
  l.mergeSort (fun a b => decide (Nat.repr a ≤ Nat.repr b))

/-- `Circuit.#multiplySums(P, Q)`: union of index sets (insertion-order dedup via
`new Set`), then JS default sort. -/
def multiplySums (P Q : List (List Nat)) : List (List Nat) :=
  P.foldl
    (fun result p =>
      result ++ Q.map (fun q => jsSortNat ((p ++ q).foldl addIfAbsent [])))
    []

/-- `Circuit.#selectFinalPrimeCover(essentials, selectedIndices, allPrimes)`. -/
def selectFinalPrimeCover (essentials : List Term) (selectedIndices : List Nat)
    (allPrimes : List Term) : List Term :=
  selectedIndices.foldl
    (fun final i =>
      let candidate := allPrimes.getD i []
      if final.any (fun ep => termEquals ep candidate) then final else final ++ [candidate])
    essentials

/-- `Circuit.#findMinimalPrimeCover(clauses)`: Petrick's product-of-sums, then the
first cover of minimum size.  (`clauses` is never empty at its call site; the
empty case models the JS crash on `clauses[0]`.) -/
def findMinimalPrimeCover (clauses : List (List Nat)) : Except EvalError (List Nat) :=
  match clauses with
  | [] => .error .petrickEmpty
  | c0 :: rest =>
    let petrick := rest.foldl
      (fun acc clause => multiplySums acc (clause.map (fun x => [x])))
      (c0.map (fun x => [x]))
    let minimalCovers :=
      match (petrick.map List.length).min? with
      | none => []
      | some minLength => petrick.filter (fun p => p.length = minLength)
    match minimalCovers with
    | [] => .error .petrickEmpty
    | best :: _ => .ok best

/-- `Circuit.#buildPrimeCoverMatrix(minterms, primes, essentialPrimes)`: per
minterm, the indices of non-essential primes covering it. -/
def buildPrimeCoverMatrix (minterms : List (List Int)) (primes : List Term)
    (essentialPrimes : List Term) : List (List Nat) :=
  minterms.map (fun minterm =>
    primes.enum.foldl
      (fun clause p =>
        if essentialPrimes.any (fun ep => termEquals ep p.2) then clause
        else if (findCoverValues p.2).any (fun covered => covered = minterm) then
          clause ++ [p.1]
        else clause)
      [])

/-- `Circuit.#getCoveredMintermsFromPrimes(primes)`. -/
def getCoveredMintermsFromPrimes (primes : List Term) : List (List Int) :=
  primes.foldl
    (fun covered prime => (findCoverValues prime).foldl addKeyIfAbsent covered)
    []

/-- `Circuit.#filterUncoveredMinterms(minterms, coveredSet)`. -/
def filterUncoveredMinterms (minterms : List (List Int)) (covered : List (List Int)) :
    List (List Int) :=
  minterms.filter (fun m => ¬ m ∈ covered)

/-- `Circuit.#petrickMethod(minterms, primes)`. -/
def petrickMethod (minterms : List (List Int)) (primes : List Term) :
    Except EvalError (List Term) :=
  let essentialPrimes := findEssentialPrimes primes minterms
  let mintermsCoveredByEssentials := getCoveredMintermsFromPrimes essentialPrimes
  let uncoveredMinterms := filterUncoveredMinterms minterms mintermsCoveredByEssentials
  if uncoveredMinterms = [] then .ok essentialPrimes
  else
    let primeCoverMatrix := buildPrimeCoverMatrix uncoveredMinterms primes essentialPrimes
    if primeCoverMatrix.any (fun clause => clause = []) then .error .infeasibleCover
    else do
      let minimalPrimeIndices ← findMinimalPrimeCover primeCoverMatrix
      .ok (selectFinalPrimeCover essentialPrimes minimalPrimeIndices primes)

/-- Allocate a node at the end of an arena, returning its index (models `new ...`
in the reconstruction step of `simplify`). -/
def alloc (arena : List (NodeSpec Circuit)) (nd : NodeSpec Circuit) :
    List (NodeSpec Circuit) × Nat :=
  (arena ++ [nd], arena.length)

/-- The `prime.forEach((bit, j) => ...)` body of `simplify`'s reconstruction:
`bit === 0` allocates `NOT(Input[j])`, `bit === 1` uses `Input[j]`, anything else
(`"-"`) contributes nothing. -/
def buildAndInputs (inputIds : List Nat) (prime : Term)
    (arena : List (NodeSpec Circuit)) : List (NodeSpec Circuit) × List Nat :=
  prime.enum.foldl
    (fun st p =>
      match p.2 with
      | .bit b =>
        if b = 0 then
          let (a, nid) := alloc st.1 (.gate "NOT" [inputIds.getD p.1 0] 0 0)
          (a, st.2 ++ [nid])
        else if b = 1 then (st.1, st.2 ++ [inputIds.getD p.1 0])
        else st
      | .dash => st)
    (arena, [])

/-- Reconstruct one output lane of `simplify`: fresh `Input` nodes, an AND per
selected prime (degenerating to its single input when it has exactly one), and an
OR of the ANDs (degenerating to the single AND). -/
def buildLaneNode (n : Nat) (bestPrimes : List Term)
    (arena : List (NodeSpec Circuit)) : List (NodeSpec Circuit) × Nat :=
  let st0 := (List.range n).foldl
    (fun st j =>
      let (a, nid) := alloc st.1 (.input j)
      (a, st.2 ++ [nid]))
    (arena, ([] : List Nat))
  let st1 := bestPrimes.foldl
    (fun st prime =>
      let (a1, inputsForAnd) := buildAndInputs st0.2 prime st.1
      match inputsForAnd with
      | [single] => (a1, st.2 ++ [single])
      | _ =>
        let (a2, gid) := alloc a1 (.gate "AND" inputsForAnd 0 0)
        (a2, st.2 ++ [gid]))
    (st0.1, ([] : List Nat))
  match st1.2 with
  | [single] => (st1.1, single)
  | andIds => alloc st1.1 (.gate "OR" andIds 0 0)

/-- `Circuit.simplify()`: per output lane, regenerate the truth table, extract
minterms, short-circuit the constant lanes, otherwise run Quine–McCluskey and
Petrick and rebuild a sum-of-products lane; finally assemble the new circuit with
AND/OR/NOT registered. -/
def Circuit.simplify (fuel : Nat) (c : Circuit) : Except EvalError Circuit := do
  let lanes ← (List.range c.outputLength).foldlM
    (fun (st : List (NodeSpec Circuit) × List Nat) i => do
      let truthTable ← generateTruthTable fuel c none
      let minterms := generateMinterms truthTable i
      if minterms = [] then
        let (a, nid) := alloc st.1 (.literal 0)
        .ok (a, st.2 ++ [nid])
      else if minterms.length = 2 ^ c.inputLength then
        let (a, nid) := alloc st.1 (.literal 1)
        .ok (a, st.2 ++ [nid])
      else
        let primes := findPrimeImplicants fuel (minterms.map (fun m => m.map Cell.bit))
        let bestPrimes ← petrickMethod minterms primes
        let (a, rootId) := buildLaneNode c.inputLength bestPrimes st.1
        .ok (a, st.2 ++ [rootId]))
    (([] : List (NodeSpec Circuit)), ([] : List Nat))
  .ok (.mk (c.name ++ "_simplified") lanes.2 lanes.1 0 0 0 0 [] simplifiedRegistry [] [])

/-- The `SubCircuitOutputNode` constructor: validates only that the referenced
node is a `CompositeNode`, then stores the reference and `outputIndex` (no range
check against the composite's output vector). -/
def mkSubCircuitOutputNode (compositeNode : NodeSpec Circuit) (compositeId : Nat)
    (outputIndex : Nat) : Except EvalError (NodeSpec Circuit) :=
  match compositeNode with
  | .composite _ _ _ _ => .ok (.subCircuitOutput compositeId outputIndex)
  | _ => .error .notComposite


/-- The circuit fields node-level evaluation never changes (everything except the
node arena and the scheduler queue). -/
def frameOf (c : Circuit) :=
  (c.name, c.rootNodes, c.totalTicks, c.currentTick, c.clock, c.prevClock,
   c.feedbackNodes, c.gateRegistry, c.history)

/-- The `currentValue` of the feedback node stored at arena index `j` (if any). -/
def feedbackCurrentAt (c : Circuit) (j : Nat) : Option Int :=
  match c.getNode j with
  | some (.feedback _ _ cur _) => some cur
  | _ => none

/-- A node that is not a `FeedbackNode`. -/
def NodeSpec.notFeedback : NodeSpec Circuit → Prop
  | .feedback _ _ _ _ => False
  | _ => True

/-- A node that is not a `FeedbackNode` (claim C4's "contains no Feedback node"). -/
def NodeSpec.noFeedback : NodeSpec Circuit → Prop := NodeSpec.notFeedback

/-- Every gate of the circuit has `delay = 0` (claim C4's hypothesis). -/
def NodeSpec.gateDelayZero : NodeSpec Circuit → Prop
  | .gate _ _ d _ => d = 0
  | _ => True

/-- An event whose callback is a gate `lastValue` write. -/
def Event.isGateWrite (e : Event) : Prop :=
  ∃ g v, e.action = .setGateLast g v

/-- The invariant every node-level evaluation step preserves: the frame fields are
untouched, every scheduler entry is either pre-existing or strictly-future, no
feedback node's `currentValue` changes, and every newly scheduled entry is a gate
`lastValue` write. -/
def EvalInv (c c' : Circuit) : Prop :=
  frameOf c' = frameOf c ∧
  (∀ e ∈ c'.events, e ∈ c.events ∨ ∃ tt, e.target = some tt ∧ c.currentTick < tt) ∧
  (∀ j, feedbackCurrentAt c' j = feedbackCurrentAt c j) ∧
  (∀ e ∈ c'.events, e ∈ c.events ∨ e.isGateWrite)

/-- A circuit used to probe `getEdgeTrigger` at given `clock`/`prevClock` values. -/
def edgeProbe (ck pk : Int) : Circuit :=
  .mk "edge" [] [] 0 0 ck pk [] (fun _ => none) [] []

/-- A fresh circuit with no registered feedback nodes. -/
def freshEmptyCircuit : Circuit :=
  .mk "fresh" [] [] 0 0 0 0 [] (fun _ => none) [] []

/-- The C2 counterexample circuit: one `Input[0]` driving a registered `Feedback`
node with `delay = 1`; the feedback node is the only root. -/
def c2Orig : Circuit :=
  .mk "latch" [1] [.input 0, .feedback (some 0) 0 0 1] 0 0 0 0 [1] (fun _ => none) [] []

/-- The C1 counterexample circuit: one output computing
`(¬a ∧ ¬b ∧ ¬c) ∨ (b ∧ c)` over inputs `[a, b, c]`, whose ON-set is
`{000, 011, 111}`. -/
def qmCircuit : Circuit :=
  .mk "qm" [8]
    [.input 0, .input 1, .input 2,
     .gate "NOT" [0] 0 0, .gate "NOT" [1] 0 0, .gate "NOT" [2] 0 0,
     .gate "AND" [3, 4, 5] 0 0, .gate "AND" [1, 2] 0 0,
     .gate "OR" [6, 7] 0 0]
    0 0 0 0 [] simplifiedRegistry [] []

/-- A node that is a `CompositeNode` (the `instanceof CompositeNode` check). -/
def NodeSpec.isCompositeNode : NodeSpec Circuit → Prop
  | .composite _ _ _ _ => True
  | _ => False

/-- Witness circuit for C5: a single literal output. -/
def w5 : Circuit := .mk "w5" [0] [.literal 7] 0 0 0 0 [] (fun _ => none) [] []

/-- The state of `w5` after one `evaluate([])`. -/
def w5After : Circuit :=
  .mk "w5" [0] [.literal 7] 1 0 0 0 [] (fun _ => none) []
    [⟨0, [⟨1, [], [], [], [7]⟩], false⟩]

/-- Witness circuit for C4: a two-input AND, delay 0, no feedback. -/
def w4 : Circuit :=
  .mk "w4" [2] [.input 0, .input 1, .gate "AND" [0, 1] 0 0] 0 0 0 0 []
    simplifiedRegistry [] []

/-- The state of `w4` after one `evaluate([1, 1])`. -/
def w4After : Circuit :=
  .mk "w4" [2] [.input 0, .input 1, .gate "AND" [0, 1] 0 1] 1 0 0 0 []
    simplifiedRegistry []
    [⟨0, [⟨1, [], [], [], [1]⟩], false⟩]

/-- A one-output sub-circuit used in the composite witnesses. -/
def subC : Circuit := .mk "sub" [0] [.literal 3] 0 0 0 0 [] (fun _ => none) [] []

/-- A parent circuit whose composite (node 0) already carries a cache for the
current tick, read through a valid `SubCircuitOutput` (node 1). -/
def p9 : Circuit :=
  .mk "p9" [1] [.composite subC [] 0 [3], .subCircuitOutput 0 0] 0 0 0 0 []
    (fun _ => none) [] []

/-- Like `p9` but with an out-of-range `outputIndex` of 5. -/
def p8 : Circuit :=
  .mk "p8" [1] [.composite subC [] 0 [3], .subCircuitOutput 0 5] 0 0 0 0 []
    (fun _ => none) [] []

/-- One step of the walk `#computeInputLength` performs: from a node to a gate
child, a feedback node's driving node, a composite's input binding, or a
sub-circuit-output's composite. -/
def nodeChildEdge (c : Circuit) (i j : Nat) : Prop :=
  ∃ nd, c.getNode i = some nd ∧ j ∈ nd.walkChildren

/-- A node reachable from `r` through the walk's edges. -/
def reachableFrom (c : Circuit) (r id : Nat) : Prop :=
  Relation.ReflTransGen (nodeChildEdge c) r id

/-- `i` is the index of an `Input` node reachable from root `r`. -/
def reachableInputIdx (c : Circuit) (r : Nat) (i : Nat) : Prop :=
  ∃ id, reachableFrom c r id ∧ c.getNode id = some (.input i)

/-- The number of arena ids not yet in the visited set (the walk's termination
measure). -/
def unvisitedCount (c : Circuit) (visited : List Nat) : Nat :=
  ((List.range c.nodes.length).filter (fun x => ¬ x ∈ visited)).length

/-- Every valid walk-child of `x` lies in `vis`. -/
def ClosedAt (c : Circuit) (vis : List Nat) (x : Nat) : Prop :=
  ∀ nd, c.getNode x = some nd → ∀ j ∈ nd.walkChildren, (c.getNode j).isSome = true → j ∈ vis

/-- The child fold inside `#computeInputLength`, named so the proofs can speak
about it. -/
def cilFold (c : Circuit) (fuel : Nat) (l : List Nat) (p : WithBot ℤ × List Nat) :
    WithBot ℤ × List Nat :=
  l.foldl
    (fun acc childId =>
      let r := computeInputLength c fuel childId acc.2
      (max acc.1 r.1, r.2))
    p

/-- Constructor-projection and updater-projection simp lemmas for the record-style
`Circuit` inductive (it cannot be a `structure` because it is recursive). -/

theorem Circuit.eta (c : Circuit) :
    Circuit.mk c.name c.rootNodes c.nodes c.totalTicks c.currentTick c.clock c.prevClock
      c.feedbackNodes c.gateRegistry c.events c.history = c := by
  cases c
  rfl

@[simp] theorem Circuit.name_mk (n : String) (r : List Nat) (ns : List (NodeSpec Circuit)) (t ct : Nat) (ck pk : Int) (fb : List Nat) (reg : String → Option GateFn) (ev : List Event) (h : List TickRecord) :
    (Circuit.mk n r ns t ct ck pk fb reg ev h).name = n := rfl

@[simp] theorem Circuit.rootNodes_mk (n : String) (r : List Nat) (ns : List (NodeSpec Circuit)) (t ct : Nat) (ck pk : Int) (fb : List Nat) (reg : String → Option GateFn) (ev : List Event) (h : List TickRecord) :
    (Circuit.mk n r ns t ct ck pk fb reg ev h).rootNodes = r := rfl

@[simp] theorem Circuit.nodes_mk (n : String) (r : List Nat) (ns : List (NodeSpec Circuit)) (t ct : Nat) (ck pk : Int) (fb : List Nat) (reg : String → Option GateFn) (ev : List Event) (h : List TickRecord) :
    (Circuit.mk n r ns t ct ck pk fb reg ev h).nodes = ns := rfl

@[simp] theorem Circuit.totalTicks_mk (n : String) (r : List Nat) (ns : List (NodeSpec Circuit)) (t ct : Nat) (ck pk : Int) (fb : List Nat) (reg : String → Option GateFn) (ev : List Event) (h : List TickRecord) :
    (Circuit.mk n r ns t ct ck pk fb reg ev h).totalTicks = t := rfl

@[simp] theorem Circuit.currentTick_mk (n : String) (r : List Nat) (ns : List (NodeSpec Circuit)) (t ct : Nat) (ck pk : Int) (fb : List Nat) (reg : String → Option GateFn) (ev : List Event) (h : List TickRecord) :
    (Circuit.mk n r ns t ct ck pk fb reg ev h).currentTick = ct := rfl

@[simp] theorem Circuit.clock_mk (n : String) (r : List Nat) (ns : List (NodeSpec Circuit)) (t ct : Nat) (ck pk : Int) (fb : List Nat) (reg : String → Option GateFn) (ev : List Event) (h : List TickRecord) :
    (Circuit.mk n r ns t ct ck pk fb reg ev h).clock = ck := rfl

@[simp] theorem Circuit.prevClock_mk (n : String) (r : List Nat) (ns : List (NodeSpec Circuit)) (t ct : Nat) (ck pk : Int) (fb : List Nat) (reg : String → Option GateFn) (ev : List Event) (h : List TickRecord) :
    (Circuit.mk n r ns t ct ck pk fb reg ev h).prevClock = pk := rfl

@[simp] theorem Circuit.feedbackNodes_mk (n : String) (r : List Nat) (ns : List (NodeSpec Circuit)) (t ct : Nat) (ck pk : Int) (fb : List Nat) (reg : String → Option GateFn) (ev : List Event) (h : List TickRecord) :
    (Circuit.mk n r ns t ct ck pk fb reg ev h).feedbackNodes = fb := rfl

@[simp] theorem Circuit.gateRegistry_mk (n : String) (r : List Nat) (ns : List (NodeSpec Circuit)) (t ct : Nat) (ck pk : Int) (fb : List Nat) (reg : String → Option GateFn) (ev : List Event) (h : List TickRecord) :
    (Circuit.mk n r ns t ct ck pk fb reg ev h).gateRegistry = reg := rfl

@[simp] theorem Circuit.events_mk (n : String) (r : List Nat) (ns : List (NodeSpec Circuit)) (t ct : Nat) (ck pk : Int) (fb : List Nat) (reg : String → Option GateFn) (ev : List Event) (h : List TickRecord) :
    (Circuit.mk n r ns t ct ck pk fb reg ev h).events = ev := rfl

@[simp] theorem Circuit.history_mk (n : String) (r : List Nat) (ns : List (NodeSpec Circuit)) (t ct : Nat) (ck pk : Int) (fb : List Nat) (reg : String → Option GateFn) (ev : List Event) (h : List TickRecord) :
    (Circuit.mk n r ns t ct ck pk fb reg ev h).history = h := rfl

@[simp] theorem Circuit.name_withNodes (c : Circuit) (x : List (NodeSpec Circuit)) :
    (c.withNodes x).name = c.name := by
  cases c
  rfl

@[simp] theorem Circuit.rootNodes_withNodes (c : Circuit) (x : List (NodeSpec Circuit)) :
    (c.withNodes x).rootNodes = c.rootNodes := by
  cases c
  rfl

@[simp] theorem Circuit.nodes_withNodes (c : Circuit) (x : List (NodeSpec Circuit)) :
    (c.withNodes x).nodes = x := by
  cases c
  rfl

@[simp] theorem Circuit.totalTicks_withNodes (c : Circuit) (x : List (NodeSpec Circuit)) :
    (c.withNodes x).totalTicks = c.totalTicks := by
  cases c
  rfl

@[simp] theorem Circuit.currentTick_withNodes (c : Circuit) (x : List (NodeSpec Circuit)) :
    (c.withNodes x).currentTick = c.currentTick := by
  cases c
  rfl

@[simp] theorem Circuit.clock_withNodes (c : Circuit) (x : List (NodeSpec Circuit)) :
    (c.withNodes x).clock = c.clock := by
  cases c
  rfl

@[simp] theorem Circuit.prevClock_withNodes (c : Circuit) (x : List (NodeSpec Circuit)) :
    (c.withNodes x).prevClock = c.prevClock := by
  cases c
  rfl

@[simp] theorem Circuit.feedbackNodes_withNodes (c : Circuit) (x : List (NodeSpec Circuit)) :
    (c.withNodes x).feedbackNodes = c.feedbackNodes := by
  cases c
  rfl

@[simp] theorem Circuit.gateRegistry_withNodes (c : Circuit) (x : List (NodeSpec Circuit)) :
    (c.withNodes x).gateRegistry = c.gateRegistry := by
  cases c
  rfl

@[simp] theorem Circuit.events_withNodes (c : Circuit) (x : List (NodeSpec Circuit)) :
    (c.withNodes x).events = c.events := by
  cases c
  rfl

@[simp] theorem Circuit.history_withNodes (c : Circuit) (x : List (NodeSpec Circuit)) :
    (c.withNodes x).history = c.history := by
  cases c
  rfl

@[simp] theorem Circuit.name_withTotalTicks (c : Circuit) (x : Nat) :
    (c.withTotalTicks x).name = c.name := by
  cases c
  rfl

@[simp] theorem Circuit.rootNodes_withTotalTicks (c : Circuit) (x : Nat) :
    (c.withTotalTicks x).rootNodes = c.rootNodes := by
  cases c
  rfl

@[simp] theorem Circuit.nodes_withTotalTicks (c : Circuit) (x : Nat) :
    (c.withTotalTicks x).nodes = c.nodes := by
  cases c
  rfl

@[simp] theorem Circuit.totalTicks_withTotalTicks (c : Circuit) (x : Nat) :
    (c.withTotalTicks x).totalTicks = x := by
  cases c
  rfl

@[simp] theorem Circuit.currentTick_withTotalTicks (c : Circuit) (x : Nat) :
    (c.withTotalTicks x).currentTick = c.currentTick := by
  cases c
  rfl

@[simp] theorem Circuit.clock_withTotalTicks (c : Circuit) (x : Nat) :
    (c.withTotalTicks x).clock = c.clock := by
  cases c
  rfl

@[simp] theorem Circuit.prevClock_withTotalTicks (c : Circuit) (x : Nat) :
    (c.withTotalTicks x).prevClock = c.prevClock := by
  cases c
  rfl

@[simp] theorem Circuit.feedbackNodes_withTotalTicks (c : Circuit) (x : Nat) :
    (c.withTotalTicks x).feedbackNodes = c.feedbackNodes := by
  cases c
  rfl

@[simp] theorem Circuit.gateRegistry_withTotalTicks (c : Circuit) (x : Nat) :
    (c.withTotalTicks x).gateRegistry = c.gateRegistry := by
  cases c
  rfl

@[simp] theorem Circuit.events_withTotalTicks (c : Circuit) (x : Nat) :
    (c.withTotalTicks x).events = c.events := by
  cases c
  rfl

@[simp] theorem Circuit.history_withTotalTicks (c : Circuit) (x : Nat) :
    (c.withTotalTicks x).history = c.history := by
  cases c
  rfl

@[simp] theorem Circuit.name_withCurrentTick (c : Circuit) (x : Nat) :
    (c.withCurrentTick x).name = c.name := by
  cases c
  rfl

@[simp] theorem Circuit.rootNodes_withCurrentTick (c : Circuit) (x : Nat) :
    (c.withCurrentTick x).rootNodes = c.rootNodes := by
  cases c
  rfl

@[simp] theorem Circuit.nodes_withCurrentTick (c : Circuit) (x : Nat) :
    (c.withCurrentTick x).nodes = c.nodes := by
  cases c
  rfl

@[simp] theorem Circuit.totalTicks_withCurrentTick (c : Circuit) (x : Nat) :
    (c.withCurrentTick x).totalTicks = c.totalTicks := by
  cases c
  rfl

@[simp] theorem Circuit.currentTick_withCurrentTick (c : Circuit) (x : Nat) :
    (c.withCurrentTick x).currentTick = x := by
  cases c
  rfl

@[simp] theorem Circuit.clock_withCurrentTick (c : Circuit) (x : Nat) :
    (c.withCurrentTick x).clock = c.clock := by
  cases c
  rfl

@[simp] theorem Circuit.prevClock_withCurrentTick (c : Circuit) (x : Nat) :
    (c.withCurrentTick x).prevClock = c.prevClock := by
  cases c
  rfl

@[simp] theorem Circuit.feedbackNodes_withCurrentTick (c : Circuit) (x : Nat) :
    (c.withCurrentTick x).feedbackNodes = c.feedbackNodes := by
  cases c
  rfl

@[simp] theorem Circuit.gateRegistry_withCurrentTick (c : Circuit) (x : Nat) :
    (c.withCurrentTick x).gateRegistry = c.gateRegistry := by
  cases c
  rfl

@[simp] theorem Circuit.events_withCurrentTick (c : Circuit) (x : Nat) :
    (c.withCurrentTick x).events = c.events := by
  cases c
  rfl

@[simp] theorem Circuit.history_withCurrentTick (c : Circuit) (x : Nat) :
    (c.withCurrentTick x).history = c.history := by
  cases c
  rfl

@[simp] theorem Circuit.name_withClock (c : Circuit) (x : Int) :
    (c.withClock x).name = c.name := by
  cases c
  rfl

@[simp] theorem Circuit.rootNodes_withClock (c : Circuit) (x : Int) :
    (c.withClock x).rootNodes = c.rootNodes := by
  cases c
  rfl

@[simp] theorem Circuit.nodes_withClock (c : Circuit) (x : Int) :
    (c.withClock x).nodes = c.nodes := by
  cases c
  rfl

@[simp] theorem Circuit.totalTicks_withClock (c : Circuit) (x : Int) :
    (c.withClock x).totalTicks = c.totalTicks := by
  cases c
  rfl

@[simp] theorem Circuit.currentTick_withClock (c : Circuit) (x : Int) :
    (c.withClock x).currentTick = c.currentTick := by
  cases c
  rfl

@[simp] theorem Circuit.clock_withClock (c : Circuit) (x : Int) :
    (c.withClock x).clock = x := by
  cases c
  rfl

@[simp] theorem Circuit.prevClock_withClock (c : Circuit) (x : Int) :
    (c.withClock x).prevClock = c.prevClock := by
  cases c
  rfl

@[simp] theorem Circuit.feedbackNodes_withClock (c : Circuit) (x : Int) :
    (c.withClock x).feedbackNodes = c.feedbackNodes := by
  cases c
  rfl

@[simp] theorem Circuit.gateRegistry_withClock (c : Circuit) (x : Int) :
    (c.withClock x).gateRegistry = c.gateRegistry := by
  cases c
  rfl

@[simp] theorem Circuit.events_withClock (c : Circuit) (x : Int) :
    (c.withClock x).events = c.events := by
  cases c
  rfl

@[simp] theorem Circuit.history_withClock (c : Circuit) (x : Int) :
    (c.withClock x).history = c.history := by
  cases c
  rfl

@[simp] theorem Circuit.name_withPrevClock (c : Circuit) (x : Int) :
    (c.withPrevClock x).name = c.name := by
  cases c
  rfl

@[simp] theorem Circuit.rootNodes_withPrevClock (c : Circuit) (x : Int) :
    (c.withPrevClock x).rootNodes = c.rootNodes := by
  cases c
  rfl

@[simp] theorem Circuit.nodes_withPrevClock (c : Circuit) (x : Int) :
    (c.withPrevClock x).nodes = c.nodes := by
  cases c
  rfl

@[simp] theorem Circuit.totalTicks_withPrevClock (c : Circuit) (x : Int) :
    (c.withPrevClock x).totalTicks = c.totalTicks := by
  cases c
  rfl

@[simp] theorem Circuit.currentTick_withPrevClock (c : Circuit) (x : Int) :
    (c.withPrevClock x).currentTick = c.currentTick := by
  cases c
  rfl

@[simp] theorem Circuit.clock_withPrevClock (c : Circuit) (x : Int) :
    (c.withPrevClock x).clock = c.clock := by
  cases c
  rfl

@[simp] theorem Circuit.prevClock_withPrevClock (c : Circuit) (x : Int) :
    (c.withPrevClock x).prevClock = x := by
  cases c
  rfl

@[simp] theorem Circuit.feedbackNodes_withPrevClock (c : Circuit) (x : Int) :
    (c.withPrevClock x).feedbackNodes = c.feedbackNodes := by
  cases c
  rfl

@[simp] theorem Circuit.gateRegistry_withPrevClock (c : Circuit) (x : Int) :
    (c.withPrevClock x).gateRegistry = c.gateRegistry := by
  cases c
  rfl

@[simp] theorem Circuit.events_withPrevClock (c : Circuit) (x : Int) :
    (c.withPrevClock x).events = c.events := by
  cases c
  rfl

@[simp] theorem Circuit.history_withPrevClock (c : Circuit) (x : Int) :
    (c.withPrevClock x).history = c.history := by
  cases c
  rfl

@[simp] theorem Circuit.name_withFeedbackNodes (c : Circuit) (x : List Nat) :
    (c.withFeedbackNodes x).name = c.name := by
  cases c
  rfl

@[simp] theorem Circuit.rootNodes_withFeedbackNodes (c : Circuit) (x : List Nat) :
    (c.withFeedbackNodes x).rootNodes = c.rootNodes := by
  cases c
  rfl

@[simp] theorem Circuit.nodes_withFeedbackNodes (c : Circuit) (x : List Nat) :
    (c.withFeedbackNodes x).nodes = c.nodes := by
  cases c
  rfl

@[simp] theorem Circuit.totalTicks_withFeedbackNodes (c : Circuit) (x : List Nat) :
    (c.withFeedbackNodes x).totalTicks = c.totalTicks := by
  cases c
  rfl

@[simp] theorem Circuit.currentTick_withFeedbackNodes (c : Circuit) (x : List Nat) :
    (c.withFeedbackNodes x).currentTick = c.currentTick := by
  cases c
  rfl

@[simp] theorem Circuit.clock_withFeedbackNodes (c : Circuit) (x : List Nat) :
    (c.withFeedbackNodes x).clock = c.clock := by
  cases c
  rfl

@[simp] theorem Circuit.prevClock_withFeedbackNodes (c : Circuit) (x : List Nat) :
    (c.withFeedbackNodes x).prevClock = c.prevClock := by
  cases c
  rfl

@[simp] theorem Circuit.feedbackNodes_withFeedbackNodes (c : Circuit) (x : List Nat) :
    (c.withFeedbackNodes x).feedbackNodes = x := by
  cases c
  rfl

@[simp] theorem Circuit.gateRegistry_withFeedbackNodes (c : Circuit) (x : List Nat) :
    (c.withFeedbackNodes x).gateRegistry = c.gateRegistry := by
  cases c
  rfl

@[simp] theorem Circuit.events_withFeedbackNodes (c : Circuit) (x : List Nat) :
    (c.withFeedbackNodes x).events = c.events := by
  cases c
  rfl

@[simp] theorem Circuit.history_withFeedbackNodes (c : Circuit) (x : List Nat) :
    (c.withFeedbackNodes x).history = c.history := by
  cases c
  rfl

@[simp] theorem Circuit.name_withEvents (c : Circuit) (x : List Event) :
    (c.withEvents x).name = c.name := by
  cases c
  rfl

@[simp] theorem Circuit.rootNodes_withEvents (c : Circuit) (x : List Event) :
    (c.withEvents x).rootNodes = c.rootNodes := by
  cases c
  rfl

@[simp] theorem Circuit.nodes_withEvents (c : Circuit) (x : List Event) :
    (c.withEvents x).nodes = c.nodes := by
  cases c
  rfl

@[simp] theorem Circuit.totalTicks_withEvents (c : Circuit) (x : List Event) :
    (c.withEvents x).totalTicks = c.totalTicks := by
  cases c
  rfl

@[simp] theorem Circuit.currentTick_withEvents (c : Circuit) (x : List Event) :
    (c.withEvents x).currentTick = c.currentTick := by
  cases c
  rfl

@[simp] theorem Circuit.clock_withEvents (c : Circuit) (x : List Event) :
    (c.withEvents x).clock = c.clock := by
  cases c
  rfl

@[simp] theorem Circuit.prevClock_withEvents (c : Circuit) (x : List Event) :
    (c.withEvents x).prevClock = c.prevClock := by
  cases c
  rfl

@[simp] theorem Circuit.feedbackNodes_withEvents (c : Circuit) (x : List Event) :
    (c.withEvents x).feedbackNodes = c.feedbackNodes := by
  cases c
  rfl

@[simp] theorem Circuit.gateRegistry_withEvents (c : Circuit) (x : List Event) :
    (c.withEvents x).gateRegistry = c.gateRegistry := by
  cases c
  rfl

@[simp] theorem Circuit.events_withEvents (c : Circuit) (x : List Event) :
    (c.withEvents x).events = x := by
  cases c
  rfl

@[simp] theorem Circuit.history_withEvents (c : Circuit) (x : List Event) :
    (c.withEvents x).history = c.history := by
  cases c
  rfl

@[simp] theorem Circuit.name_withHistory (c : Circuit) (x : List TickRecord) :
    (c.withHistory x).name = c.name := by
  cases c
  rfl

@[simp] theorem Circuit.rootNodes_withHistory (c : Circuit) (x : List TickRecord) :
    (c.withHistory x).rootNodes = c.rootNodes := by
  cases c
  rfl

@[simp] theorem Circuit.nodes_withHistory (c : Circuit) (x : List TickRecord) :
    (c.withHistory x).nodes = c.nodes := by
  cases c
  rfl

@[simp] theorem Circuit.totalTicks_withHistory (c : Circuit) (x : List TickRecord) :
    (c.withHistory x).totalTicks = c.totalTicks := by
  cases c
  rfl

@[simp] theorem Circuit.currentTick_withHistory (c : Circuit) (x : List TickRecord) :
    (c.withHistory x).currentTick = c.currentTick := by
  cases c
  rfl

@[simp] theorem Circuit.clock_withHistory (c : Circuit) (x : List TickRecord) :
    (c.withHistory x).clock = c.clock := by
  cases c
  rfl

@[simp] theorem Circuit.prevClock_withHistory (c : Circuit) (x : List TickRecord) :
    (c.withHistory x).prevClock = c.prevClock := by
  cases c
  rfl

@[simp] theorem Circuit.feedbackNodes_withHistory (c : Circuit) (x : List TickRecord) :
    (c.withHistory x).feedbackNodes = c.feedbackNodes := by
  cases c
  rfl

@[simp] theorem Circuit.gateRegistry_withHistory (c : Circuit) (x : List TickRecord) :
    (c.withHistory x).gateRegistry = c.gateRegistry := by
  cases c
  rfl

@[simp] theorem Circuit.events_withHistory (c : Circuit) (x : List TickRecord) :
    (c.withHistory x).events = c.events := by
  cases c
  rfl

@[simp] theorem Circuit.history_withHistory (c : Circuit) (x : List TickRecord) :
    (c.withHistory x).history = x := by
  cases c
  rfl

theorem exceptBind_ok {α β : Type} {x : Except EvalError α} {f : α → Except EvalError β}
    {b : β} : (x >>= f) = .ok b ↔ ∃ a, x = .ok a ∧ f a = .ok b := by
  cases x with
  | error e => simp [Bind.bind, Except.bind]
  | ok a => simp [Bind.bind, Except.bind]

@[simp] theorem frameOf_withNodes (c : Circuit) (ns : List (NodeSpec Circuit)) :
    frameOf (c.withNodes ns) = frameOf c := by
  cases c
  rfl

@[simp] theorem frameOf_withEvents (c : Circuit) (ev : List Event) :
    frameOf (c.withEvents ev) = frameOf c := by
  cases c
  rfl

theorem frameOf_eq_iff {c c' : Circuit} :
    frameOf c' = frameOf c ↔
      (c'.name = c.name ∧ c'.rootNodes = c.rootNodes ∧ c'.totalTicks = c.totalTicks ∧
       c'.currentTick = c.currentTick ∧ c'.clock = c.clock ∧ c'.prevClock = c.prevClock ∧
       c'.feedbackNodes = c.feedbackNodes ∧ c'.gateRegistry = c.gateRegistry ∧
       c'.history = c.history) := by
  simp [frameOf, Prod.ext_iff]

theorem Circuit.currentTick_of_frame {c c' : Circuit} (h : frameOf c' = frameOf c) :
    c'.currentTick = c.currentTick :=
  (frameOf_eq_iff.mp h).2.2.2.1

@[simp] theorem getNode_withEvents (c : Circuit) (ev : List Event) (j : Nat) :
    (c.withEvents ev).getNode j = c.getNode j := by
  cases c
  rfl

@[simp] theorem frameOf_setNode (c : Circuit) (id : Nat) (nd : NodeSpec Circuit) :
    frameOf (setNode c id nd) = frameOf c := by
  simp [setNode]

@[simp] theorem events_setNode (c : Circuit) (id : Nat) (nd : NodeSpec Circuit) :
    (setNode c id nd).events = c.events := by
  simp [setNode]

theorem getNode_setNode_ne (c : Circuit) (id : Nat) (nd : NodeSpec Circuit) {j : Nat}
    (h : ¬ id = j) : (setNode c id nd).getNode j = c.getNode j := by
  simp [setNode, Circuit.getNode, List.getElem?_set_ne h]

theorem getNode_lt_length {c : Circuit} {id : Nat} {nd : NodeSpec Circuit}
    (h : c.getNode id = some nd) : id < c.nodes.length := by
  simp only [Circuit.getNode] at h
  exact (List.getElem?_eq_some.mp h).1

theorem getNode_setNode_self {c : Circuit} {id : Nat} {nd0 : NodeSpec Circuit}
    (nd : NodeSpec Circuit) (h : c.getNode id = some nd0) :
    (setNode c id nd).getNode id = some nd := by
  simp [setNode, Circuit.getNode, List.getElem?_set, getNode_lt_length h]

theorem feedbackCurrentAt_setNode_notFeedback {c : Circuit} {id : Nat}
    {nd0 nd : NodeSpec Circuit} (hold : c.getNode id = some nd0)
    (h0 : nd0.notFeedback) (h1 : nd.notFeedback) (j : Nat) :
    feedbackCurrentAt (setNode c id nd) j = feedbackCurrentAt c j := by
  unfold feedbackCurrentAt
  by_cases hj : id = j
  · subst hj
    rw [getNode_setNode_self nd hold, hold]
    cases nd0 <;> cases nd <;> simp_all [NodeSpec.notFeedback]
  · rw [getNode_setNode_ne c id nd hj]

@[simp] theorem frameOf_setGateLastValue (c : Circuit) (id : Nat) (v : Int) :
    frameOf (setGateLastValue c id v) = frameOf c := by
  unfold setGateLastValue
  split <;> simp

@[simp] theorem events_setGateLastValue (c : Circuit) (id : Nat) (v : Int) :
    (setGateLastValue c id v).events = c.events := by
  unfold setGateLastValue
  split <;> simp

theorem feedbackCurrentAt_setGateLastValue (c : Circuit) (id : Nat) (v : Int) (j : Nat) :
    feedbackCurrentAt (setGateLastValue c id v) j = feedbackCurrentAt c j := by
  unfold setGateLastValue
  split
  case _ ty ins d last heq =>
    exact feedbackCurrentAt_setNode_notFeedback heq (by simp [NodeSpec.notFeedback])
      (by simp [NodeSpec.notFeedback]) j
  case _ => rfl

theorem evalInv_refl (c : Circuit) : EvalInv c c :=
  ⟨rfl, fun _ he => .inl he, fun _ => rfl, fun _ he => .inl he⟩

theorem evalInv_trans {a b c : Circuit} (h1 : EvalInv a b) (h2 : EvalInv b c) :
    EvalInv a c := by
  obtain ⟨hf1, he1, hfb1, hg1⟩ := h1
  obtain ⟨hf2, he2, hfb2, hg2⟩ := h2
  have hct : b.currentTick = a.currentTick := Circuit.currentTick_of_frame hf1
  refine ⟨hf2.trans hf1, ?_, fun j => (hfb2 j).trans (hfb1 j), ?_⟩
  · intro e he
    rcases he2 e he with hb | ⟨tt, hta, htb⟩
    · exact he1 e hb
    · exact .inr ⟨tt, hta, hct ▸ htb⟩
  · intro e he
    rcases hg2 e he with hb | hw
    · exact hg1 e hb
    · exact .inr hw

theorem evalInv_setGateLastValue (c : Circuit) (id : Nat) (v : Int) :
    EvalInv c (setGateLastValue c id v) :=
  ⟨by simp, by rw [events_setGateLastValue]; exact fun e he => Or.inl he,
   fun j => feedbackCurrentAt_setGateLastValue c id v j,
   by rw [events_setGateLastValue]; exact fun e he => Or.inl he⟩

theorem evalInv_scheduleGateWrite (c : Circuit) {tt : Nat} (h : c.currentTick < tt)
    (g : Nat) (v : Int) :
    EvalInv c (c.withEvents (scheduleEvent c.events (some tt) (.setGateLast g v))) := by
  refine ⟨by simp, ?_, ?_, ?_⟩
  · intro e he
    simp only [Circuit.events_withEvents, scheduleEvent, List.mem_append,
      List.mem_singleton] at he
    rcases he with he | he
    · exact .inl he
    · exact .inr ⟨tt, by simp [he], h⟩
  · intro j
    simp [feedbackCurrentAt]
  · intro e he
    simp only [Circuit.events_withEvents, scheduleEvent, List.mem_append,
      List.mem_singleton] at he
    rcases he with he | he
    · exact .inl he
    · exact .inr ⟨g, v, by simp [he]⟩

theorem evalInv_setComposite {c : Circuit} {id : Nat}
    {sub0 sub' : Circuit} {ins0 ins : List Nat} {lt0 lt : Int} {co0 co : List Int}
    (hold : c.getNode id = some (.composite sub0 ins0 lt0 co0)) :
    EvalInv c (setNode c id (.composite sub' ins lt co)) :=
  ⟨by simp, by rw [events_setNode]; exact fun e he => Or.inl he,
   fun j => feedbackCurrentAt_setNode_notFeedback hold (by simp [NodeSpec.notFeedback])
     (by simp [NodeSpec.notFeedback]) j,
   by rw [events_setNode]; exact fun e he => Or.inl he⟩

/-- Every node-level evaluation step (node, node list, composite, feedback phase 1)
preserves `EvalInv`: frame fields untouched, scheduler entries pre-existing or
strictly future, feedback `currentValue`s untouched, new entries gate writes only. -/
theorem evalInv_all : ∀ fuel : Nat,
    (∀ c inputs id v c', evalNode fuel c inputs id = .ok (v, c') → EvalInv c c') ∧
    (∀ c inputs ids vs c', evalNodes fuel c inputs ids = .ok (vs, c') → EvalInv c c') ∧
    (∀ c inputs id vs c', evalCompositeAt fuel c inputs id = .ok (vs, c') → EvalInv c c') ∧
    (∀ c inputs fbs us c', feedbackPhase1 fuel c inputs fbs = .ok (us, c') → EvalInv c c') := by
  intro fuel
  induction fuel with
  | zero =>
    refine ⟨?_, ?_, ?_, ?_⟩ <;> intro c inputs a v c' h <;>
      simp [evalNode, evalNodes, evalCompositeAt, feedbackPhase1] at h
  | succ fuel ih =>
    obtain ⟨ihN, ihNs, ihC, ihF⟩ := ih
    have stepN : ∀ c inputs id v c', evalNode (fuel+1) c inputs id = .ok (v, c') →
        EvalInv c c' := by
      intro c inputs id v c' h
      rw [evalNode] at h
      split at h
      · exact absurd h (by simp)
      · obtain ⟨-, hc⟩ := by simpa using h
        exact hc ▸ evalInv_refl c
      · obtain ⟨-, hc⟩ := by simpa using h
        exact hc ▸ evalInv_refl c
      · obtain ⟨-, hc⟩ := by simpa using h
        exact hc ▸ evalInv_refl c
      case _ gateType inputNodes delay lastValue _ =>
        split at h
        · exact absurd h (by simp)
        case _ gateFunc _ =>
          rw [exceptBind_ok] at h
          obtain ⟨⟨childVals, c1⟩, hns, h⟩ := h
          dsimp only at h
          rw [exceptBind_ok] at h
          obtain ⟨newValue, -, h⟩ := h
          have hinv1 : EvalInv c c1 := ihNs c inputs inputNodes childVals c1 hns
          split at h
          case _ hd =>
            obtain ⟨-, hc⟩ := by simpa using h
            refine hc ▸ evalInv_trans hinv1 ?_
            exact evalInv_scheduleGateWrite c1 (Nat.lt_add_of_pos_right hd) id newValue
          case _ =>
            obtain ⟨-, hc⟩ := by simpa using h
            exact hc ▸ evalInv_trans hinv1 (evalInv_setGateLastValue c1 id newValue)
      · obtain ⟨-, hc⟩ := by simpa using h
        exact hc ▸ evalInv_refl c
      · exact absurd h (by simp)
      case _ compositeNode outputIndex _ =>
        rw [exceptBind_ok] at h
        obtain ⟨⟨outs, c1⟩, hcp, h⟩ := h
        dsimp only at h
        split at h
        · exact absurd h (by simp)
        · obtain ⟨-, hc⟩ := by simpa using h
          exact hc ▸ ihC c inputs compositeNode outs c1 hcp
    have stepNs : ∀ c inputs ids vs c', evalNodes (fuel+1) c inputs ids = .ok (vs, c') →
        EvalInv c c' := by
      intro c inputs ids vs c' h
      cases ids with
      | nil =>
        rw [evalNodes] at h
        obtain ⟨-, hc⟩ := by simpa using h
        exact hc ▸ evalInv_refl c
      | cons id rest =>
        rw [evalNodes] at h
        rw [exceptBind_ok] at h
        obtain ⟨⟨v1, c1⟩, hn, h⟩ := h
        dsimp only at h
        rw [exceptBind_ok] at h
        obtain ⟨⟨vrest, c2⟩, hrest, h⟩ := h
        dsimp only at h
        obtain ⟨-, hc⟩ := by simpa using h
        exact hc ▸ evalInv_trans (ihN c inputs id v1 c1 hn)
          (ihNs c1 inputs rest vrest c2 hrest)
    have stepC : ∀ c inputs id vs c', evalCompositeAt (fuel+1) c inputs id = .ok (vs, c') →
        EvalInv c c' := by
      intro c inputs id vs c' h
      rw [evalCompositeAt] at h
      split at h
      case _ sub0 inputNodes lastTick cached _ =>
        split at h
        · obtain ⟨-, hc⟩ := by simpa using h
          exact hc ▸ evalInv_refl c
        · rw [exceptBind_ok] at h
          obtain ⟨⟨subInputs, c1⟩, hbinds, h⟩ := h
          dsimp only at h
          split at h
          case _ subCircuit ins lt1 co1 heq1 =>
            rw [exceptBind_ok] at h
            obtain ⟨⟨outs, subX⟩, -, h⟩ := h
            dsimp only at h
            obtain ⟨-, hc⟩ := by simpa using h
            refine hc ▸ evalInv_trans (ihNs c inputs inputNodes subInputs c1 hbinds) ?_
            exact evalInv_setComposite heq1
          · exact absurd h (by simp)
      · exact absurd h (by simp)
    have stepF : ∀ c inputs fbs us c', feedbackPhase1 (fuel+1) c inputs fbs = .ok (us, c') →
        EvalInv c c' := by
      intro c inputs fbs us c' h
      cases fbs with
      | nil =>
        rw [feedbackPhase1] at h
        obtain ⟨-, hc⟩ := by simpa using h
        exact hc ▸ evalInv_refl c
      | cons fb rest =>
        rw [feedbackPhase1] at h
        split at h
        case _ inputNode _ _ _ _ =>
          rw [exceptBind_ok] at h
          obtain ⟨⟨newValue, c1⟩, hn, h⟩ := h
          dsimp only at h
          rw [exceptBind_ok] at h
          obtain ⟨⟨us2, c2⟩, hrest, h⟩ := h
          dsimp only at h
          obtain ⟨-, hc⟩ := by simpa using h
          exact hc ▸ evalInv_trans (ihN c inputs inputNode newValue c1 hn)
            (ihF c1 inputs rest us2 c2 hrest)
        case _ =>
          rw [exceptBind_ok] at h
          obtain ⟨⟨us1, c1⟩, hrest, h⟩ := h
          dsimp only at h
          obtain ⟨-, hc⟩ := by simpa using h
          exact hc ▸ ihF c inputs rest us1 c1 hrest
    exact ⟨stepN, stepNs, stepC, stepF⟩

@[simp] theorem frameOf_setFeedbackCurrentValue (c : Circuit) (id : Nat) (v : Int) :
    frameOf (setFeedbackCurrentValue c id v) = frameOf c := by
  unfold setFeedbackCurrentValue
  split <;> simp

@[simp] theorem events_setFeedbackCurrentValue (c : Circuit) (id : Nat) (v : Int) :
    (setFeedbackCurrentValue c id v).events = c.events := by
  unfold setFeedbackCurrentValue
  split <;> simp

@[simp] theorem frameOf_applyEvent (c : Circuit) (e : Event) :
    frameOf (applyEvent c e) = frameOf c := by
  unfold applyEvent
  cases e.action <;> simp

@[simp] theorem events_applyEvent (c : Circuit) (e : Event) :
    (applyEvent c e).events = c.events := by
  unfold applyEvent
  cases e.action <;> simp

theorem frameOf_applyEvents (evs : List Event) (c : Circuit) :
    frameOf (evs.foldl applyEvent c) = frameOf c := by
  induction evs generalizing c with
  | nil => rfl
  | cons e rest ih => rw [List.foldl_cons, ih, frameOf_applyEvent]

theorem events_applyEvents (evs : List Event) (c : Circuit) :
    (evs.foldl applyEvent c).events = c.events := by
  induction evs generalizing c with
  | nil => rfl
  | cons e rest ih => rw [List.foldl_cons, ih, events_applyEvent]

theorem frameOf_applyFeedbackUpdate (c : Circuit) (u : Option (Nat × Int)) :
    frameOf (applyFeedbackUpdate c u) = frameOf c := by
  unfold applyFeedbackUpdate
  split
  · rfl
  · split
    · split <;> simp
    · rfl

theorem events_applyFeedbackUpdate (c : Circuit) (u : Option (Nat × Int)) :
    ∀ e ∈ (applyFeedbackUpdate c u).events,
      e ∈ c.events ∨ ∃ tt, e.target = some tt ∧ c.currentTick < tt := by
  unfold applyFeedbackUpdate
  split
  · exact fun e he => .inl he
  case _ fb value =>
    split
    case _ inp init cur delay _ =>
      split
      · simp only [events_setNode]
        exact fun e he => .inl he
      case _ hd =>
        intro e he
        simp only [Circuit.events_withEvents, scheduleEvent, List.mem_append,
          List.mem_singleton] at he
        rcases he with he | he
        · exact .inl he
        · exact .inr ⟨c.currentTick + delay, by simp [he],
            Nat.lt_add_of_pos_right (Nat.pos_of_ne_zero hd)⟩
    · exact fun e he => .inl he

theorem applyFeedbackUpdates_spec (us : List (Option (Nat × Int))) (c : Circuit) :
    frameOf (applyFeedbackUpdates c us) = frameOf c ∧
    ∀ e ∈ (applyFeedbackUpdates c us).events,
      e ∈ c.events ∨ ∃ tt, e.target = some tt ∧ c.currentTick < tt := by
  induction us generalizing c with
  | nil => exact ⟨rfl, fun e he => .inl he⟩
  | cons u rest ih =>
    have h1f := frameOf_applyFeedbackUpdate c u
    have h1e := events_applyFeedbackUpdate c u
    obtain ⟨ihf, ihe⟩ := ih (applyFeedbackUpdate c u)
    have hct : (applyFeedbackUpdate c u).currentTick = c.currentTick :=
      Circuit.currentTick_of_frame h1f
    refine ⟨?_, ?_⟩
    · rw [applyFeedbackUpdates, List.foldl_cons]
      rw [applyFeedbackUpdates] at ihf
      rw [ihf, h1f]
    · intro e he
      rw [applyFeedbackUpdates, List.foldl_cons] at he
      rw [applyFeedbackUpdates] at ihe
      rcases ihe e he with h1 | ⟨tt, hta, htb⟩
      · rcases h1e e h1 with h2 | ⟨tt, hta, htb⟩
        · exact .inl h2
        · exact .inr ⟨tt, hta, htb⟩
      · exact .inr ⟨tt, hta, hct ▸ htb⟩

theorem consume_remaining_not_tick (evs : List Event) (t : Nat) :
    ∀ e ∈ (consumeEventsForTick evs t).2, ¬ e.target = some t := by
  intro e he
  simp only [consumeEventsForTick, List.mem_filter, decide_not] at he
  simpa using he.2

theorem consume_remaining_subset (evs : List Event) (t : Nat) :
    ∀ e ∈ (consumeEventsForTick evs t).2, e ∈ evs := by
  intro e he
  exact List.mem_of_mem_filter he

theorem hasEventsForTick_eq_false {evs : List Event} {t : Nat}
    (h : ∀ e ∈ evs, ¬ e.target = some t) : hasEventsForTick evs t = false := by
  simp only [hasEventsForTick, List.any_eq_false, decide_eq_true_eq]
  exact h

theorem deltaLoop_stable {fuel : Nat} {c : Circuit} {inputs old : List Int}
    {sub : List DeltaRecord} {iter maxD : Nat} {r : List Int × Circuit × List DeltaRecord}
    (hev : hasEventsForTick c.events c.currentTick = false)
    (h : deltaLoop fuel c inputs old sub iter maxD = .ok r) :
    r = (old, c, sub) := by
  cases fuel with
  | zero => simp [deltaLoop] at h
  | succ fuel =>
    rw [deltaLoop] at h
    rw [if_neg] at h
    · exact (by simpa using h.symm)
    · rw [hev]
      simp

/-- Everything `Circuit.evaluate` guarantees about a completed tick: the only new
scheduler entries target strictly future ticks, no entry remains for the tick just
run, and the one appended history record has exactly one delta-cycle record and is
marked stable. -/
theorem evaluateCircuit_ok_spec {fuel : Nat} {c : Circuit} {inputs : List Int}
    {maxD : Nat} {outs : List Int} {c' : Circuit}
    (h : evaluateCircuit fuel c inputs maxD = .ok (outs, c')) :
    (∀ e ∈ c'.events, e ∈ c.events ∨ ∃ tt, e.target = some tt ∧ c.totalTicks < tt) ∧
    hasEventsForTick c'.events c.totalTicks = false ∧
    (∃ rec : TickRecord, c'.history = c.history ++ [rec] ∧
      rec.subHistory.length = 1 ∧ rec.unstable = false) := by
  cases fuel with
  | zero => simp [evaluateCircuit] at h
  | succ fuel =>
    rw [evaluateCircuit] at h
    rw [exceptBind_ok] at h
    obtain ⟨⟨fbUpdates, c2⟩, hfb, h⟩ := h
    dsimp only at h
    rw [exceptBind_ok] at h
    obtain ⟨⟨oldOutputs, c4⟩, hroots, h⟩ := h
    dsimp only at h
    rw [exceptBind_ok] at h
    obtain ⟨⟨finalOutputs, c5, subHistory⟩, hloop, h⟩ := h
    dsimp only at h
    set c1 := c.withCurrentTick c.totalTicks with hc1
    set pr := consumeEventsForTick c1.events c1.currentTick with hpr
    set c1b := List.foldl applyEvent (c1.withEvents pr.2) pr.1 with hc1b
    set c3 := applyFeedbackUpdates c2 fbUpdates with hc3
    have hfb_inv : EvalInv c1b c2 := (evalInv_all fuel).2.2.2 _ _ _ _ _ hfb
    have hroots_inv : EvalInv c3 c4 := (evalInv_all fuel).2.1 _ _ _ _ _ hroots
    have hframe1b : frameOf c1b = frameOf c1 := by
      rw [hc1b, frameOf_applyEvents]
      simp
    have hframe2 : frameOf c2 = frameOf c1 := hfb_inv.1.trans hframe1b
    have hframe3 : frameOf c3 = frameOf c1 := by
      rw [hc3]
      exact ((applyFeedbackUpdates_spec fbUpdates c2).1).trans hframe2
    have hframe4 : frameOf c4 = frameOf c1 := hroots_inv.1.trans hframe3
    have hct1 : c1.currentTick = c.totalTicks := by simp [hc1]
    have hct1b : c1b.currentTick = c.totalTicks := (Circuit.currentTick_of_frame hframe1b).trans hct1
    have hct2 : c2.currentTick = c.totalTicks := (Circuit.currentTick_of_frame hframe2).trans hct1
    have hct3 : c3.currentTick = c.totalTicks := (Circuit.currentTick_of_frame hframe3).trans hct1
    have hct4 : c4.currentTick = c.totalTicks := (Circuit.currentTick_of_frame hframe4).trans hct1
    have hev4 : ∀ e ∈ c4.events,
        e ∈ pr.2 ∨ ∃ tt, e.target = some tt ∧ c.totalTicks < tt := by
      intro e he
      rcases hroots_inv.2.1 e he with h3 | ⟨tt, hta, htb⟩
      · rcases (applyFeedbackUpdates_spec fbUpdates c2).2 e h3 with h2 | ⟨tt, hta, htb⟩
        · rcases hfb_inv.2.1 e h2 with h1b | ⟨tt, hta, htb⟩
          · rw [hc1b, events_applyEvents] at h1b
            simp only [Circuit.events_withEvents] at h1b
            exact .inl h1b
          · exact .inr ⟨tt, hta, hct1b ▸ htb⟩
        · exact .inr ⟨tt, hta, hct2 ▸ htb⟩
      · exact .inr ⟨tt, hta, hct3 ▸ htb⟩
    have hev4' : ∀ e ∈ c4.events, ¬ e.target = some c.totalTicks := by
      intro e he
      rcases hev4 e he with hrem | ⟨tt, hta, htb⟩
      · have hnt := consume_remaining_not_tick c1.events c1.currentTick e (by rw [← hpr]; exact hrem)
        rw [hct1] at hnt
        exact hnt
      · intro hcontra
        rw [hcontra] at hta
        obtain rfl : tt = c.totalTicks := by simpa using hta.symm
        exact lt_irrefl _ htb
    have hstable : hasEventsForTick c4.events c4.currentTick = false := by
      rw [hct4]
      exact hasEventsForTick_eq_false hev4'
    have hr := deltaLoop_stable hstable hloop
    rw [Prod.ext_iff, Prod.ext_iff] at hr
    obtain ⟨rfl, rfl, rfl⟩ : finalOutputs = oldOutputs ∧ c5 = c4 ∧
        subHistory = [⟨1, c1.events, pr.1, c4.events, oldOutputs⟩] := ⟨hr.1, hr.2.1, hr.2.2⟩
    rw [Except.ok.injEq, Prod.mk.injEq] at h
    obtain ⟨-, hc'⟩ := h
    subst hc'
    have hhist5 : c5.history = c.history := by
      have h1 : c5.history = c1.history := (frameOf_eq_iff.mp hframe4).2.2.2.2.2.2.2.2
      rw [h1, hc1]
      simp
    have htot5 : c5.totalTicks = c.totalTicks := by
      have h1 : c5.totalTicks = c1.totalTicks := (frameOf_eq_iff.mp hframe4).2.2.1
      rw [h1, hc1]
      simp
    have hev1 : c1.events = c.events := by
      rw [hc1]
      simp
    refine ⟨?_, ?_, ?_⟩
    · intro e he
      simp only [Circuit.events_withTotalTicks, Circuit.events_withHistory] at he
      rcases hev4 e he with hrem | hfut
      · exact .inl (hev1 ▸ consume_remaining_subset c1.events c1.currentTick e
          (by rw [← hpr]; exact hrem))
      · exact .inr hfut
    · simp only [Circuit.events_withTotalTicks, Circuit.events_withHistory]
      exact hasEventsForTick_eq_false hev4'
    · refine ⟨⟨c5.totalTicks, [⟨1, c1.events, pr.1, c5.events, finalOutputs⟩],
        !!hasEventsForTick c5.events c5.currentTick⟩, ?_, ?_, ?_⟩
      · simp [hhist5]
      · rfl
      · simp [hstable]

/-- C5: every event the engine places on the scheduler (gate-delay or
feedback-delay handling) targets a tick strictly greater than `currentTick` at
the moment of scheduling; consequently, after the initial event consumption no
events remain for `currentTick`, the delta-cycle while-loop never runs a second
iteration (the appended record holds exactly the first delta cycle), and every
history record appended by `evaluate` has `unstable = false`. -/
theorem claim5_events_future_loop_dead (fuel : Nat) (c : Circuit) (inputs : List Int)
    (maxD : Nat) (outs : List Int) (c' : Circuit)
    (h : evaluateCircuit fuel c inputs maxD = .ok (outs, c')) :
    (∀ e ∈ c'.events, e ∈ c.events ∨ ∃ tt, e.target = some tt ∧ c.totalTicks < tt) ∧
    hasEventsForTick c'.events c.totalTicks = false ∧
    (∃ rec : TickRecord, c'.history = c.history ++ [rec] ∧
      rec.subHistory.length = 1 ∧ rec.unstable = false) :=
  evaluateCircuit_ok_spec h

/-- Witness for C5: one tick of the literal-output circuit `w5`. -/
theorem claim5_events_future_loop_dead_witness :
    (∀ e ∈ w5After.events, e ∈ w5.events ∨ ∃ tt, e.target = some tt ∧ w5.totalTicks < tt) ∧
    hasEventsForTick w5After.events w5.totalTicks = false ∧
    (∃ rec : TickRecord, w5After.history = w5.history ++ [rec] ∧
      rec.subHistory.length = 1 ∧ rec.unstable = false) :=
  claim5_events_future_loop_dead 5 w5 [] 50 [7] w5After rfl

/-- C4: for a circuit with no `Feedback` node and all gate delays 0, a completed
`evaluate(inputs)` stabilizes in exactly one delta cycle for every input vector:
exactly one delta-cycle record is produced and the tick is recorded stable. -/
theorem claim4_combinational_one_delta_cycle (fuel : Nat) (c : Circuit)
    (inputs : List Int) (maxD : Nat) (outs : List Int) (c' : Circuit)
    (hnf : ∀ nd ∈ c.nodes, nd.noFeedback)
    (hdz : ∀ nd ∈ c.nodes, nd.gateDelayZero)
    (h : evaluateCircuit fuel c inputs maxD = .ok (outs, c')) :
    ∃ rec : TickRecord, c'.history = c.history ++ [rec] ∧
      rec.subHistory.length = 1 ∧ rec.unstable = false :=
  (evaluateCircuit_ok_spec h).2.2

/-- Witness for C4: one tick of the AND circuit `w4` on input `[1, 1]`. -/
theorem claim4_combinational_one_delta_cycle_witness :
    ∃ rec : TickRecord, w4After.history = w4.history ++ [rec] ∧
      rec.subHistory.length = 1 ∧ rec.unstable = false :=
  claim4_combinational_one_delta_cycle 20 w4 [1, 1] 50 [1] w4After
    (by
      intro nd hnd
      have hmem : nd = NodeSpec.input 0 ∨ nd = NodeSpec.input 1 ∨
          nd = NodeSpec.gate "AND" [0, 1] 0 0 := by simpa [w4] using hnd
      rcases hmem with rfl | rfl | rfl <;>
        simp [NodeSpec.noFeedback, NodeSpec.notFeedback])
    (by
      intro nd hnd
      have hmem : nd = NodeSpec.input 0 ∨ nd = NodeSpec.input 1 ∨
          nd = NodeSpec.gate "AND" [0, 1] 0 0 := by simpa [w4] using hnd
      rcases hmem with rfl | rfl | rfl <;> simp [NodeSpec.gateDelayZero])
    rfl

/-- C3: `FeedbackNode.evaluate` returns the node's `currentValue` and mutates no
state whatsoever (the returned circuit is the input circuit); moreover no
node-level read changes any feedback node's `currentValue` or schedules a
feedback write — those happen only in the explicit feedback-update step
(`computeFeedback` and the two-phase update of `evaluate`, which inlines it) and
the callbacks it schedules. -/
theorem claim3_feedback_evaluate_is_pure_read :
    (∀ fuel c inputs id inp init cur d,
      c.getNode id = some (.feedback inp init cur d) →
      evalNode (fuel+1) c inputs id = .ok (cur, c)) ∧
    (∀ fuel c inputs id v c', evalNode fuel c inputs id = .ok (v, c') →
      (∀ j, feedbackCurrentAt c' j = feedbackCurrentAt c j) ∧
      (∀ e ∈ c'.events, e ∈ c.events ∨ e.isGateWrite)) := by
  constructor
  · intro fuel c inputs id inp init cur d h
    rw [evalNode, h]
  · intro fuel c inputs id v c' h
    have hinv := (evalInv_all fuel).1 c inputs id v c' h
    exact ⟨hinv.2.2.1, hinv.2.2.2⟩

/-- Witness for C3 at the feedback node of `c2Orig`. -/
theorem claim3_feedback_evaluate_is_pure_read_witness :
    evalNode 5 c2Orig [0] 1 = .ok (0, c2Orig) ∧
    ((∀ j, feedbackCurrentAt c2Orig j = feedbackCurrentAt c2Orig j) ∧
     (∀ e ∈ c2Orig.events, e ∈ c2Orig.events ∨ e.isGateWrite)) :=
  ⟨claim3_feedback_evaluate_is_pure_read.1 4 c2Orig [0] 1 (some 0) 0 0 1 rfl,
   claim3_feedback_evaluate_is_pure_read.2 5 c2Orig [0] 1 0 c2Orig
     (claim3_feedback_evaluate_is_pure_read.1 4 c2Orig [0] 1 (some 0) 0 0 1 rfl)⟩

/-- C9: a `Composite` node whose `lastEvaluationTick` equals the parent's
`currentTick` returns its cached output vector with the whole circuit (including
the embedded sub-circuit) unchanged; and after any completed first evaluation, a
second evaluation at the unchanged `currentTick` returns the same vector and
changes nothing. -/
theorem claim9_composite_per_tick_cache :
    (∀ fuel c inputs id sub binds cached,
      c.getNode id = some (.composite sub binds (c.currentTick : Int) cached) →
      evalCompositeAt (fuel+1) c inputs id = .ok (cached, c)) ∧
    (∀ fuel c inputs id outs c₁, evalCompositeAt fuel c inputs id = .ok (outs, c₁) →
      ∀ fuel2 inputs2, evalCompositeAt (fuel2+1) c₁ inputs2 id = .ok (outs, c₁)) := by
  have hit : ∀ fuel c inputs id sub binds cached,
      c.getNode id = some (.composite sub binds (c.currentTick : Int) cached) →
      evalCompositeAt (fuel+1) c inputs id = .ok (cached, c) := by
    intro fuel c inputs id sub binds cached h
    rw [evalCompositeAt, h]
    simp
  refine ⟨hit, ?_⟩
  intro fuel c inputs id outs c₁ h fuel2 inputs2
  have hpost : ∃ sub' binds', c₁.getNode id =
      some (.composite sub' binds' (c₁.currentTick : Int) outs) := by
    cases fuel with
    | zero => simp [evalCompositeAt] at h
    | succ fuel =>
      rw [evalCompositeAt] at h
      split at h
      case _ sub0 binds0 lt0 co0 heq0 =>
        split at h
        case _ hhit =>
          obtain ⟨ho, hcc⟩ := by simpa using h
          subst hcc
          subst ho
          exact ⟨sub0, binds0, by rw [heq0, hhit]⟩
        case _ =>
          rw [exceptBind_ok] at h
          obtain ⟨⟨subInputs, cm⟩, hbinds, h⟩ := h
          dsimp only at h
          split at h
          case _ subCir ins lt1 co1 heq1 =>
            rw [exceptBind_ok] at h
            obtain ⟨⟨outsX, subX⟩, hsub, h⟩ := h
            dsimp only at h
            obtain ⟨ho, hcc⟩ := by simpa using h
            subst hcc
            refine ⟨subX, ins, ?_⟩
            have hct : (setNode cm id
                (NodeSpec.composite subX ins (cm.currentTick : Int) outsX)).currentTick
                = cm.currentTick := by simp [setNode]
            rw [getNode_setNode_self _ heq1, hct, ho]
          case _ => exact absurd h (by simp)
      case _ => exact absurd h (by simp)
  obtain ⟨sub', binds', hp⟩ := hpost
  exact hit fuel2 c₁ inputs2 id sub' binds' outs hp

/-- Witness for C9: the pre-cached composite of `p9`, evaluated twice. -/
theorem claim9_composite_per_tick_cache_witness :
    evalCompositeAt 5 p9 [] 0 = .ok ([3], p9) ∧
    evalCompositeAt 6 p9 [] 0 = .ok ([3], p9) :=
  ⟨claim9_composite_per_tick_cache.1 4 p9 [] 0 subC [] [3] rfl,
   claim9_composite_per_tick_cache.2 5 p9 [] 0 [3] p9
     (claim9_composite_per_tick_cache.1 4 p9 [] 0 subC [] [3] rfl) 5 []⟩

/-- C8 counterexample: the `SubCircuitOutputNode` constructor accepts an
`outputIndex` that is out of range for the referenced composite's one-output
sub-circuit — construction does not fail, refuting the claim's first half. -/
theorem claim8_construction_counterexample :
    mkSubCircuitOutputNode (.composite subC [] (-1) []) 0 5 = .ok (.subCircuitOutput 0 5) ∧
    subC.outputLength = 1 ∧ 5 ≥ subC.outputLength :=
  ⟨rfl, rfl, by decide⟩

/-- C8 (amended): constructing a `SubCircuitOutput` node fails only when the
referenced node is not a `CompositeNode` — `outputIndex` is not range-checked at
construction.  `SubCircuitOutput.evaluate` fails with the out-of-bounds error
exactly when the composite's output vector is shorter than `outputIndex`
requires, and otherwise returns that lane. -/
theorem claim8_construction_and_evaluate_checks :
    (∀ nd cid idx, nd.isCompositeNode →
      mkSubCircuitOutputNode nd cid idx = .ok (.subCircuitOutput cid idx)) ∧
    (∀ nd cid idx, ¬ nd.isCompositeNode →
      mkSubCircuitOutputNode nd cid idx = .error .notComposite) ∧
    (∀ fuel c inputs id comp idx outs c₁,
      c.getNode id = some (.subCircuitOutput comp idx) →
      evalCompositeAt fuel c inputs comp = .ok (outs, c₁) →
      (idx ≥ outs.length → evalNode (fuel+1) c inputs id = .error .indexOutOfBounds) ∧
      (idx < outs.length → evalNode (fuel+1) c inputs id = .ok (outs.getD idx 0, c₁))) := by
  refine ⟨?_, ?_, ?_⟩
  · intro nd cid idx hc
    cases nd <;> simp [NodeSpec.isCompositeNode] at hc <;> rfl
  · intro nd cid idx hc
    cases nd <;> simp [NodeSpec.isCompositeNode] at hc <;> rfl
  · intro fuel c inputs id comp idx outs c₁ hid hcomp
    constructor
    · intro hge
      rw [evalNode, hid]
      simp only [hcomp, Bind.bind, Except.bind]
      rw [if_pos hge]
    · intro hlt
      rw [evalNode, hid]
      simp only [hcomp, Bind.bind, Except.bind]
      rw [if_neg (by omega)]

/-- Witness for C8's amended claim: construction with a wildly out-of-range index
succeeds on a composite and fails on a non-composite; evaluation of the
out-of-range `SubCircuitOutput` of `p8` fails while the in-range one of `p9`
succeeds. -/
theorem claim8_construction_and_evaluate_checks_witness :
    mkSubCircuitOutputNode (.composite subC [] (-1) []) 0 5 = .ok (.subCircuitOutput 0 5) ∧
    mkSubCircuitOutputNode .clock 0 0 = .error .notComposite ∧
    evalNode 6 p8 [] 1 = .error .indexOutOfBounds ∧
    evalNode 6 p9 [] 1 = .ok (3, p9) :=
  ⟨claim8_construction_and_evaluate_checks.1 (.composite subC [] (-1) []) 0 5 trivial,
   claim8_construction_and_evaluate_checks.2.1 .clock 0 0 (by simp [NodeSpec.isCompositeNode]),
   (claim8_construction_and_evaluate_checks.2.2 5 p8 [] 1 0 5 [3] p8 rfl
     (claim9_composite_per_tick_cache.1 4 p8 [] 0 subC [] [3] rfl)).1 (by decide),
   (claim8_construction_and_evaluate_checks.2.2 5 p9 [] 1 0 0 [3] p9 rfl
     (claim9_composite_per_tick_cache.1 4 p9 [] 0 subC [] [3] rfl)).2 (by decide)⟩

/-- C10: `getEdgeTrigger()` returns SAME when `clock` equals `prevClock`,
POSITIVE_EDGE ("POSITIVE EDGE TRIGGER") when `clock` is greater than `prevClock`,
and NEGATIVE_EDGE ("NEGATIVE EDGE TRIGGER") otherwise. -/
theorem claim10_getEdgeTrigger_cases (c : Circuit) :
    (c.clock = c.prevClock → c.getEdgeTrigger = .same) ∧
    (c.clock > c.prevClock → c.getEdgeTrigger = .positiveEdgeTrigger) ∧
    (c.clock ≠ c.prevClock → ¬ c.clock > c.prevClock →
      c.getEdgeTrigger = .negativeEdgeTrigger) := by
  refine ⟨fun he => ?_, fun hg => ?_, fun hne hng => ?_⟩
  · simp [Circuit.getEdgeTrigger, he]
  · have hne : ¬ c.clock = c.prevClock := by
      intro he
      rw [he] at hg
      exact lt_irrefl _ hg
    simp [Circuit.getEdgeTrigger, hne, hg]
  · simp [Circuit.getEdgeTrigger, hne, hng]

/-- Witness for C10 at concrete clock states. -/
theorem claim10_getEdgeTrigger_cases_witness :
    (edgeProbe 1 1).getEdgeTrigger = .same ∧
    (edgeProbe 1 0).getEdgeTrigger = .positiveEdgeTrigger ∧
    (edgeProbe 0 1).getEdgeTrigger = .negativeEdgeTrigger :=
  ⟨(claim10_getEdgeTrigger_cases (edgeProbe 1 1)).1 rfl,
   (claim10_getEdgeTrigger_cases (edgeProbe 1 0)).2.1 (by decide),
   (claim10_getEdgeTrigger_cases (edgeProbe 0 1)).2.2 (by decide) (by decide)⟩

/-- C7 (code bug): `registerFeedbackNode` does NOT behave as a set.  The guarded
push is followed by an unconditional `this.feedbackNodes.push(node)`, so a single
registration of a fresh node puts the node in the list twice and registering an
already-registered node appends yet another occurrence. -/
theorem claim7_registerFeedbackNode_duplicates :
    (freshEmptyCircuit.registerFeedbackNode 5).feedbackNodes = [5, 5] ∧
    ((freshEmptyCircuit.registerFeedbackNode 5).registerFeedbackNode 5).feedbackNodes
      = [5, 5, 5] ∧
    (freshEmptyCircuit.registerFeedbackNode 5).feedbackNodes.count 5 = 2 := by
  refine ⟨rfl, rfl, rfl⟩

/-- C2 (code bug): a `clone(true)` taken while a delayed feedback update is
pending in the scheduler does not reproduce the original's continuation.  After
one `evaluate([1])` the original holds a pending event (set the feedback value to
1 at tick 1).  `clone(true)` copies that entry via `scheduleEvent(event.tick,
event.callback)`, but scheduler entries store `targetTick`, not `tick`, so the
clone's entry has an `undefined` target and never fires (and its callback would
mutate the original's node object anyway).  Driving both circuits with the same
input then yields `[1]` from the original but `[0]` from the clone. -/
theorem claim2_cloneTrue_pending_event_diverges :
    (do
      let r1 ← evaluateCircuit 20 c2Orig [1] 50
      let cl ← cloneCircuit 20 true r1.2
      let rClone ← evaluateCircuit 20 cl [0] 50
      let rOrig ← evaluateCircuit 20 r1.2 [0] 50
      pure (r1.1, rClone.1, rOrig.1) :
        Except EvalError (List Int × List Int × List Int))
      = .ok ([0], [0], [1]) ∧
    ([0] : List Int) ≠ [1] :=
  ⟨rfl, by decide⟩

/-- C1 (code bug): `simplify()` is not total, so it cannot be truth-table
equivalent to the original on every circuit.  On the circuit with ON-set
`{000, 011, 111}`, `#findPrimeImplicants` replaces the working set with only the
merged terms, discarding the unmerged prime implicant `000`; Petrick's method then
finds the minterm `000` covered by no remaining prime and `simplify` throws
"Unsolvable: Some minterms are not covered by any remaining prime implicants." -/
theorem claim1_simplify_throws_on_lost_prime :
    (generateTruthTable 30 qmCircuit none).map (fun tt => generateMinterms tt 0)
      = .ok [[0, 0, 0], [0, 1, 1], [1, 1, 1]] ∧
    findPrimeImplicants 30 ([[0, 0, 0], [0, 1, 1], [1, 1, 1]].map (fun m => m.map Cell.bit))
      = [[Cell.dash, Cell.bit 1, Cell.bit 1]] ∧
    Circuit.simplify 30 qmCircuit = .error .infeasibleCover :=
  ⟨rfl, rfl, rfl⟩

theorem length_filter_mono' {α : Type} {p q : α → Bool} (l : List α)
    (h : ∀ x ∈ l, p x = true → q x = true) :
    (l.filter p).length ≤ (l.filter q).length := by
  rw [← List.countP_eq_length_filter, ← List.countP_eq_length_filter]
  exact List.countP_mono_left h

theorem unvisitedCount_mono (c : Circuit) {v1 v2 : List Nat} (h : ∀ x ∈ v1, x ∈ v2) :
    unvisitedCount c v2 ≤ unvisitedCount c v1 := by
  unfold unvisitedCount
  refine length_filter_mono' _ ?_
  intro x _ hx
  simp only [decide_eq_true_eq] at hx ⊢
  intro hmem
  exact hx (h x hmem)

theorem length_filter_lt_of_flip {α : Type} {p q : α → Bool} (l : List α)
    (hpq : ∀ x ∈ l, p x = true → q x = true) {a : α} (ha : a ∈ l)
    (hqa : q a = true) (hpa : p a = false) :
    (l.filter p).length < (l.filter q).length := by
  induction l with
  | nil => cases ha
  | cons b l ih =>
    rcases List.mem_cons.mp ha with rfl | hal
    · have hmono := length_filter_mono' l (fun x hx => hpq x (List.mem_cons_of_mem _ hx))
      simp only [List.filter_cons, hqa, hpa]
      simpa using Nat.lt_succ_of_le hmono
    · have hlt := ih (fun x hx => hpq x (List.mem_cons_of_mem _ hx)) hal
      simp only [List.filter_cons]
      cases hb : p b with
      | false =>
        cases hqb : q b <;> simp <;> omega
      | true =>
        have hqb := hpq b (List.mem_cons_self _ _) hb
        simp [hqb]
        omega

theorem unvisitedCount_push (c : Circuit) {id : Nat} {visited : List Nat}
    (hlt : id < c.nodes.length) (hnv : ¬ id ∈ visited) :
    unvisitedCount c (id :: visited) < unvisitedCount c visited := by
  unfold unvisitedCount
  refine length_filter_lt_of_flip _ ?_ (List.mem_range.mpr hlt) ?_ ?_
  · intro x _ hx
    simp only [decide_eq_true_eq] at hx ⊢
    intro hmem
    exact hx (List.mem_cons_of_mem _ hmem)
  · simpa using hnv
  · simp

theorem unvisitedCount_le_length (c : Circuit) (visited : List Nat) :
    unvisitedCount c visited ≤ c.nodes.length := by
  unfold unvisitedCount
  calc ((List.range c.nodes.length).filter _).length
      ≤ (List.range c.nodes.length).length := List.length_filter_le _ _
    _ = c.nodes.length := List.length_range _

theorem closedAt_mono {c : Circuit} {vis vis' : List Nat} {x : Nat}
    (h : ClosedAt c vis x) (hsub : ∀ y ∈ vis, y ∈ vis') : ClosedAt c vis' x :=
  fun nd hnd j hj hjv => hsub j (h nd hnd j hj hjv)

theorem cilFold_nil (c : Circuit) (fuel : Nat) (p : WithBot ℤ × List Nat) :
    cilFold c fuel [] p = p := rfl

theorem cilFold_cons (c : Circuit) (fuel : Nat) (cid : Nat) (l : List Nat)
    (p : WithBot ℤ × List Nat) :
    cilFold c fuel (cid :: l) p =
      cilFold c fuel l
        (max p.1 (computeInputLength c fuel cid p.2).1,
         (computeInputLength c fuel cid p.2).2) := rfl

theorem computeInputLength_succ (c : Circuit) (fuel : Nat) (id : Nat)
    (visited : List Nat) :
    computeInputLength c (fuel+1) id visited =
      match c.getNode id with
      | none => (⊥, visited)
      | some nd =>
        if id ∈ visited then (⊥, visited)
        else
          match nd with
          | .input index => (((index : ℤ) : WithBot ℤ), id :: visited)
          | _ => cilFold c fuel nd.walkChildren (((-1 : ℤ) : WithBot ℤ), id :: visited) := by
  rw [computeInputLength]
  rfl

theorem cilFold_basic (c : Circuit) (fuel : Nat)
    (IH : ∀ id visited, (∀ x ∈ visited, x ∈ (computeInputLength c fuel id visited).2) ∧
    (∀ x ∈ (computeInputLength c fuel id visited).2, x ∈ visited ∨ reachableFrom c id x) ∧
    (∀ x i, x ∈ (computeInputLength c fuel id visited).2 → ¬ x ∈ visited →
      c.getNode x = some (.input i) → ((i : ℤ) : WithBot ℤ) ≤ (computeInputLength c fuel id visited).1) ∧
    ((computeInputLength c fuel id visited).1 = ⊥ ∨ (computeInputLength c fuel id visited).1 = ((-1 : ℤ) : WithBot ℤ) ∨
     ∃ x i, x ∈ (computeInputLength c fuel id visited).2 ∧ ¬ x ∈ visited ∧ c.getNode x = some (.input i) ∧
       (computeInputLength c fuel id visited).1 = ((i : ℤ) : WithBot ℤ))) :
    ∀ (l : List Nat) (acc : WithBot ℤ) (vis0 : List Nat),
      ((-1 : ℤ) : WithBot ℤ) ≤ acc →
      (∀ x ∈ vis0, x ∈ (cilFold c fuel l (acc, vis0)).2) ∧
      (∀ x ∈ (cilFold c fuel l (acc, vis0)).2, x ∈ vis0 ∨ ∃ cid ∈ l, reachableFrom c cid x) ∧
      (∀ x i, x ∈ (cilFold c fuel l (acc, vis0)).2 → ¬ x ∈ vis0 →
        c.getNode x = some (.input i) → ((i : ℤ) : WithBot ℤ) ≤ (cilFold c fuel l (acc, vis0)).1) ∧
      ((cilFold c fuel l (acc, vis0)).1 = acc ∨
       ∃ x i, x ∈ (cilFold c fuel l (acc, vis0)).2 ∧ ¬ x ∈ vis0 ∧ c.getNode x = some (.input i) ∧
         (cilFold c fuel l (acc, vis0)).1 = ((i : ℤ) : WithBot ℤ)) ∧
      acc ≤ (cilFold c fuel l (acc, vis0)).1 := by
  intro l
  induction l with
  | nil =>
    intro acc vis0 hacc
    rw [cilFold_nil]
    exact ⟨fun x hx => hx, fun x hx => .inl hx,
      fun x i hx hnx _ => absurd hx hnx, .inl rfl, le_refl _⟩
  | cons cid l ihl =>
    intro acc vis0 hacc
    obtain ⟨a1, b1, c1, d1⟩ := IH cid vis0
    have hacc1 : ((-1 : ℤ) : WithBot ℤ) ≤ max acc (computeInputLength c fuel cid vis0).1 :=
      le_trans hacc (le_max_left _ _)
    obtain ⟨A, B, C, D, E⟩ :=
      ihl (max acc (computeInputLength c fuel cid vis0).1)
        (computeInputLength c fuel cid vis0).2 hacc1
    rw [cilFold_cons]
    refine ⟨?_, ?_, ?_, ?_, ?_⟩
    · intro x hx
      exact A x (a1 x hx)
    · intro x hx
      rcases B x hx with hr | ⟨cid2, hcid2, hreach⟩
      · rcases b1 x hr with hv | hreach
        · exact .inl hv
        · exact .inr ⟨cid, List.mem_cons_self _ _, hreach⟩
      · exact .inr ⟨cid2, List.mem_cons_of_mem _ hcid2, hreach⟩
    · intro x i hx hnx hinput
      by_cases hxr : x ∈ (computeInputLength c fuel cid vis0).2
      · exact le_trans (le_trans (c1 x i hxr hnx hinput) (le_max_right _ _)) E
      · exact C x i hx hxr hinput
    · rcases D with hD | ⟨x, i, hx, hnx, hinput, hFi⟩
      · rcases d1 with h1 | h1 | ⟨x, i, hx, hnx, hinput, hri⟩
        · refine .inl (hD.trans ?_)
          rw [h1]
          exact max_eq_left bot_le
        · refine .inl (hD.trans ?_)
          rw [h1]
          exact max_eq_left hacc
        · rcases max_choice acc (computeInputLength c fuel cid vis0).1 with hm | hm
          · exact .inl (hD.trans hm)
          · exact .inr ⟨x, i, A x hx, hnx, hinput, hD.trans (hm.trans hri)⟩
      · exact .inr ⟨x, i, hx, fun hv2 => hnx (a1 x hv2), hinput, hFi⟩
    · exact le_trans (le_max_left _ _) E

theorem cil_branch_basic (c : Circuit) (fuel : Nat)
    (IH : ∀ id visited, (∀ x ∈ visited, x ∈ (computeInputLength c fuel id visited).2) ∧
    (∀ x ∈ (computeInputLength c fuel id visited).2, x ∈ visited ∨ reachableFrom c id x) ∧
    (∀ x i, x ∈ (computeInputLength c fuel id visited).2 → ¬ x ∈ visited →
      c.getNode x = some (.input i) → ((i : ℤ) : WithBot ℤ) ≤ (computeInputLength c fuel id visited).1) ∧
    ((computeInputLength c fuel id visited).1 = ⊥ ∨ (computeInputLength c fuel id visited).1 = ((-1 : ℤ) : WithBot ℤ) ∨
     ∃ x i, x ∈ (computeInputLength c fuel id visited).2 ∧ ¬ x ∈ visited ∧ c.getNode x = some (.input i) ∧
       (computeInputLength c fuel id visited).1 = ((i : ℤ) : WithBot ℤ)))
    (id : Nat) (visited : List Nat) (nd : NodeSpec Circuit)
    (hnd : c.getNode id = some nd) (hv : ¬ id ∈ visited)
    (hni : ∀ i, ¬ nd = NodeSpec.input i) :
    (∀ x ∈ visited, x ∈ (cilFold c fuel nd.walkChildren (((-1 : ℤ) : WithBot ℤ), id :: visited)).2) ∧
    (∀ x ∈ (cilFold c fuel nd.walkChildren (((-1 : ℤ) : WithBot ℤ), id :: visited)).2,
      x ∈ visited ∨ reachableFrom c id x) ∧
    (∀ x i, x ∈ (cilFold c fuel nd.walkChildren (((-1 : ℤ) : WithBot ℤ), id :: visited)).2 →
      ¬ x ∈ visited → c.getNode x = some (.input i) →
      ((i : ℤ) : WithBot ℤ) ≤ (cilFold c fuel nd.walkChildren (((-1 : ℤ) : WithBot ℤ), id :: visited)).1) ∧
    ((cilFold c fuel nd.walkChildren (((-1 : ℤ) : WithBot ℤ), id :: visited)).1 = ⊥ ∨
     (cilFold c fuel nd.walkChildren (((-1 : ℤ) : WithBot ℤ), id :: visited)).1 = ((-1 : ℤ) : WithBot ℤ) ∨
     ∃ x i, x ∈ (cilFold c fuel nd.walkChildren (((-1 : ℤ) : WithBot ℤ), id :: visited)).2 ∧
       ¬ x ∈ visited ∧ c.getNode x = some (.input i) ∧
       (cilFold c fuel nd.walkChildren (((-1 : ℤ) : WithBot ℤ), id :: visited)).1 = ((i : ℤ) : WithBot ℤ)) := by
  obtain ⟨A, B, C, D, E⟩ :=
    cilFold_basic c fuel IH nd.walkChildren (((-1 : ℤ) : WithBot ℤ)) (id :: visited) (le_refl _)
  refine ⟨?_, ?_, ?_, ?_⟩
  · intro x hx
    exact A x (List.mem_cons_of_mem _ hx)
  · intro x hx
    rcases B x hx with hv0 | ⟨cid, hcid, hreach⟩
    · rcases List.mem_cons.mp hv0 with rfl | hv0
      · exact .inr Relation.ReflTransGen.refl
      · exact .inl hv0
    · exact .inr (Relation.ReflTransGen.head ⟨nd, hnd, hcid⟩ hreach)
  · intro x i hx hnx hinput
    have hxid : ¬ x = id := by
      intro hxe
      subst hxe
      rw [hnd] at hinput
      exact hni i (by injection hinput)
    refine C x i hx ?_ hinput
    intro hmem
    rcases List.mem_cons.mp hmem with hxe | hmem
    · exact hxid hxe
    · exact hnx hmem
  · rcases D with hD | ⟨x, i, hx, hnx, hinput, hFi⟩
    · exact .inr (.inl hD)
    · refine .inr (.inr ⟨x, i, hx, ?_, hinput, hFi⟩)
      intro hmem
      exact hnx (List.mem_cons_of_mem _ hmem)

theorem computeInputLength_basic (c : Circuit) :
    ∀ fuel id visited, (∀ x ∈ visited, x ∈ (computeInputLength c fuel id visited).2) ∧
    (∀ x ∈ (computeInputLength c fuel id visited).2, x ∈ visited ∨ reachableFrom c id x) ∧
    (∀ x i, x ∈ (computeInputLength c fuel id visited).2 → ¬ x ∈ visited →
      c.getNode x = some (.input i) → ((i : ℤ) : WithBot ℤ) ≤ (computeInputLength c fuel id visited).1) ∧
    ((computeInputLength c fuel id visited).1 = ⊥ ∨ (computeInputLength c fuel id visited).1 = ((-1 : ℤ) : WithBot ℤ) ∨
     ∃ x i, x ∈ (computeInputLength c fuel id visited).2 ∧ ¬ x ∈ visited ∧ c.getNode x = some (.input i) ∧
       (computeInputLength c fuel id visited).1 = ((i : ℤ) : WithBot ℤ)) := by
  intro fuel
  induction fuel with
  | zero =>
    intro id visited
    exact ⟨fun x hx => hx, fun x hx => .inl hx,
      fun x i hx hnx _ => absurd hx hnx, .inl rfl⟩
  | succ fuel ihf =>
    intro id visited
    simp only [computeInputLength_succ]
    rcases hnd : c.getNode id with - | nd
    · exact ⟨fun x hx => hx, fun x hx => .inl hx,
        fun x i hx hnx _ => absurd hx hnx, .inl rfl⟩
    by_cases hv : id ∈ visited
    · simp only [if_pos hv]
      refine ⟨fun x hx => hx, fun x hx => .inl hx,
        fun x i hx hnx _ => absurd hx hnx, ?_⟩
      simp
    simp only [if_neg hv]
    have branch := fun (nd : NodeSpec Circuit) (hnd : c.getNode id = some nd)
        (hni : ∀ i, ¬ nd = NodeSpec.input i) =>
      cil_branch_basic c fuel ihf id visited nd hnd hv hni
    rcases nd with v | index | - | ⟨ty, ins, d, lv⟩ | ⟨inp, iv, cv, dl⟩ |
      ⟨sub, ins, lt1, co⟩ | ⟨comp, oi⟩
    · exact branch _ hnd (fun i h => NodeSpec.noConfusion h)
    · refine ⟨fun x hx => List.mem_cons_of_mem _ hx, ?_, ?_, ?_⟩
      · intro x hx
        rcases List.mem_cons.mp hx with rfl | hx
        · exact .inr Relation.ReflTransGen.refl
        · exact .inl hx
      · intro x i hx hnx hinput
        rcases List.mem_cons.mp hx with rfl | hx
        · rw [hnd] at hinput
          have hii : index = i := by
            injection hinput with h1
            injection h1
          subst hii
          exact le_refl _
        · exact absurd hx hnx
      · exact .inr (.inr ⟨id, index, List.mem_cons_self _ _, hv, hnd, rfl⟩)
    · exact branch _ hnd (fun i h => NodeSpec.noConfusion h)
    · exact branch _ hnd (fun i h => NodeSpec.noConfusion h)
    · exact branch _ hnd (fun i h => NodeSpec.noConfusion h)
    · exact branch _ hnd (fun i h => NodeSpec.noConfusion h)
    · exact branch _ hnd (fun i h => NodeSpec.noConfusion h)

theorem cilFold_closed (c : Circuit) (fuel : Nat)
    (IHb : ∀ id visited, (∀ x ∈ visited, x ∈ (computeInputLength c fuel id visited).2) ∧
      (∀ x ∈ (computeInputLength c fuel id visited).2, x ∈ visited ∨ reachableFrom c id x) ∧
      (∀ x i, x ∈ (computeInputLength c fuel id visited).2 → ¬ x ∈ visited →
        c.getNode x = some (.input i) → ((i : ℤ) : WithBot ℤ) ≤ (computeInputLength c fuel id visited).1) ∧
      ((computeInputLength c fuel id visited).1 = ⊥ ∨ (computeInputLength c fuel id visited).1 = ((-1 : ℤ) : WithBot ℤ) ∨
       ∃ x i, x ∈ (computeInputLength c fuel id visited).2 ∧ ¬ x ∈ visited ∧ c.getNode x = some (.input i) ∧
         (computeInputLength c fuel id visited).1 = ((i : ℤ) : WithBot ℤ)))
    (IHc : ∀ id visited, unvisitedCount c visited < fuel →
      (∀ x ∈ (computeInputLength c fuel id visited).2, ¬ x ∈ visited → ClosedAt c (computeInputLength c fuel id visited).2 x) ∧
      (∀ nd2, c.getNode id = some nd2 → ¬ id ∈ visited → id ∈ (computeInputLength c fuel id visited).2))
    (visited0 : List Nat) (idEx : Nat) :
    ∀ (l : List Nat) (acc : WithBot ℤ) (vis0 : List Nat),
      unvisitedCount c vis0 < fuel →
      (∀ x ∈ vis0, ¬ x ∈ visited0 → ¬ x = idEx → ClosedAt c vis0 x) →
      (∀ x ∈ (cilFold c fuel l (acc, vis0)).2, ¬ x ∈ visited0 → ¬ x = idEx → ClosedAt c (cilFold c fuel l (acc, vis0)).2 x) ∧
      (∀ cid ∈ l, (c.getNode cid).isSome = true → cid ∈ (cilFold c fuel l (acc, vis0)).2) ∧
      (∀ x ∈ vis0, x ∈ (cilFold c fuel l (acc, vis0)).2) := by
  intro l
  induction l with
  | nil =>
    intro acc vis0 hm hclosed
    rw [cilFold_nil]
    exact ⟨hclosed, fun cid hcid => absurd hcid (List.not_mem_nil _), fun x hx => hx⟩
  | cons cid l ihl =>
    intro acc vis0 hm hclosed
    have ra : ∀ x ∈ vis0, x ∈ (computeInputLength c fuel cid vis0).2 :=
      (IHb cid vis0).1
    obtain ⟨cc1, cc2⟩ := IHc cid vis0 hm
    have hm2 : unvisitedCount c (computeInputLength c fuel cid vis0).2 < fuel :=
      lt_of_le_of_lt (unvisitedCount_mono c ra) hm
    have hclosed2 : ∀ x ∈ (computeInputLength c fuel cid vis0).2,
        ¬ x ∈ visited0 → ¬ x = idEx →
        ClosedAt c (computeInputLength c fuel cid vis0).2 x := by
      intro x hx hnx hne
      by_cases hx0 : x ∈ vis0
      · exact closedAt_mono (hclosed x hx0 hnx hne) ra
      · exact cc1 x hx hx0
    obtain ⟨A1, A2, A3⟩ :=
      ihl (max acc (computeInputLength c fuel cid vis0).1)
        (computeInputLength c fuel cid vis0).2 hm2 hclosed2
    rw [cilFold_cons]
    refine ⟨A1, ?_, fun x hx => A3 x (ra x hx)⟩
    intro cid2 hcid2 hvalid
    rcases List.mem_cons.mp hcid2 with rfl | hcid2
    · by_cases hc0 : cid2 ∈ vis0
      · exact A3 cid2 (ra cid2 hc0)
      · obtain ⟨nd2, hnd2⟩ := Option.isSome_iff_exists.mp hvalid
        exact A3 cid2 (cc2 nd2 hnd2 hc0)
    · exact A2 cid2 hcid2 hvalid

theorem cil_branch_closed (c : Circuit) (fuel : Nat)
    (IHb : ∀ id visited, (∀ x ∈ visited, x ∈ (computeInputLength c fuel id visited).2) ∧
      (∀ x ∈ (computeInputLength c fuel id visited).2, x ∈ visited ∨ reachableFrom c id x) ∧
      (∀ x i, x ∈ (computeInputLength c fuel id visited).2 → ¬ x ∈ visited →
        c.getNode x = some (.input i) → ((i : ℤ) : WithBot ℤ) ≤ (computeInputLength c fuel id visited).1) ∧
      ((computeInputLength c fuel id visited).1 = ⊥ ∨ (computeInputLength c fuel id visited).1 = ((-1 : ℤ) : WithBot ℤ) ∨
       ∃ x i, x ∈ (computeInputLength c fuel id visited).2 ∧ ¬ x ∈ visited ∧ c.getNode x = some (.input i) ∧
         (computeInputLength c fuel id visited).1 = ((i : ℤ) : WithBot ℤ)))
    (IHc : ∀ id visited, unvisitedCount c visited < fuel →
      (∀ x ∈ (computeInputLength c fuel id visited).2, ¬ x ∈ visited → ClosedAt c (computeInputLength c fuel id visited).2 x) ∧
      (∀ nd2, c.getNode id = some nd2 → ¬ id ∈ visited → id ∈ (computeInputLength c fuel id visited).2))
    (id : Nat) (visited : List Nat) (nd : NodeSpec Circuit)
    (hnd : c.getNode id = some nd) (hv : ¬ id ∈ visited)
    (hm1 : unvisitedCount c (id :: visited) < fuel) :
    (∀ x ∈ (cilFold c fuel nd.walkChildren (((-1 : ℤ) : WithBot ℤ), id :: visited)).2, ¬ x ∈ visited → ClosedAt c (cilFold c fuel nd.walkChildren (((-1 : ℤ) : WithBot ℤ), id :: visited)).2 x) ∧
    (∀ nd2, c.getNode id = some nd2 → ¬ id ∈ visited → id ∈ (cilFold c fuel nd.walkChildren (((-1 : ℤ) : WithBot ℤ), id :: visited)).2) := by
  have hclosed0 : ∀ x ∈ id :: visited, ¬ x ∈ visited → ¬ x = id →
      ClosedAt c (id :: visited) x := by
    intro x hx hnx hne
    rcases List.mem_cons.mp hx with rfl | hx
    · exact absurd rfl hne
    · exact absurd hx hnx
  obtain ⟨B1, B2, B3⟩ := cilFold_closed c fuel IHb IHc visited id
    nd.walkChildren (((-1 : ℤ) : WithBot ℤ)) (id :: visited) hm1 hclosed0
  constructor
  · intro x hx hnx
    by_cases hxe : x = id
    · subst hxe
      intro nd2 hnd2 j hj hjv
      rw [hnd] at hnd2
      injection hnd2 with hnd2
      subst hnd2
      exact B2 j hj hjv
    · exact B1 x hx hnx hxe
  · intro nd2 _ _
    exact B3 id (List.mem_cons_self _ _)

theorem computeInputLength_closed (c : Circuit) :
    ∀ fuel id visited, unvisitedCount c visited < fuel →
      (∀ x ∈ (computeInputLength c fuel id visited).2, ¬ x ∈ visited → ClosedAt c (computeInputLength c fuel id visited).2 x) ∧
      (∀ nd2, c.getNode id = some nd2 → ¬ id ∈ visited → id ∈ (computeInputLength c fuel id visited).2) := by
  intro fuel
  induction fuel with
  | zero =>
    intro id visited hm
    omega
  | succ fuel ihf =>
    intro id visited hm
    simp only [computeInputLength_succ]
    rcases hnd : c.getNode id with - | nd
    · refine ⟨fun x hx hnx => absurd hx hnx, ?_⟩
      intro nd2 hnd2 _
      exact Option.noConfusion hnd2
    by_cases hv : id ∈ visited
    · simp only [if_pos hv]
      exact ⟨fun x hx hnx => absurd hx hnx, fun nd2 _ hniv => absurd hv hniv⟩
    simp only [if_neg hv]
    have hvalid : id < c.nodes.length := getNode_lt_length hnd
    have hm1 : unvisitedCount c (id :: visited) < fuel := by
      have hpush := unvisitedCount_push c hvalid hv
      omega
    have branch := fun (nd : NodeSpec Circuit) (hnd : c.getNode id = some nd) =>
      cil_branch_closed c fuel (computeInputLength_basic c fuel) ihf id visited nd hnd hv hm1
    rcases nd with v | index | - | ⟨ty, ins, d, lv⟩ | ⟨inp, iv, cv, dl⟩ |
      ⟨sub, ins, lt1, co⟩ | ⟨comp, oi⟩
    · rw [← hnd]
      dsimp only
      exact branch _ hnd
    · dsimp only
      refine ⟨?_, fun nd2 _ _ => List.mem_cons_self _ _⟩
      intro x hx hnx
      have hxe : x = id := by
        rcases List.mem_cons.mp hx with rfl | hx
        · rfl
        · exact absurd hx hnx
      subst hxe
      intro nd2 hnd2 j hj hjv
      rw [hnd] at hnd2
      injection hnd2 with hnd2
      subst hnd2
      exact absurd hj (List.not_mem_nil _)
    · rw [← hnd]
      dsimp only
      exact branch _ hnd
    · rw [← hnd]
      dsimp only
      exact branch _ hnd
    · rw [← hnd]
      dsimp only
      exact branch _ hnd
    · rw [← hnd]
      dsimp only
      exact branch _ hnd
    · rw [← hnd]
      dsimp only
      exact branch _ hnd

theorem reachable_mem_visited (c : Circuit) (root : Nat) :
    ∀ x, reachableFrom c root x → (c.getNode x).isSome = true →
      x ∈ (computeInputLength c (c.nodes.length + 1) root []).2 := by
  have hm : unvisitedCount c [] < c.nodes.length + 1 :=
    Nat.lt_succ_of_le (unvisitedCount_le_length c [])
  obtain ⟨hclos, hroot⟩ := computeInputLength_closed c (c.nodes.length + 1) root [] hm
  intro x hreach
  induction hreach with
  | refl =>
    intro hvalid
    obtain ⟨nd, hnd⟩ := Option.isSome_iff_exists.mp hvalid
    exact hroot nd hnd (List.not_mem_nil _)
  | tail hab hbc ih =>
    intro hvalid
    obtain ⟨nd, hnd, hchild⟩ := hbc
    have hb := ih (by rw [hnd]; rfl)
    exact hclos _ hb (List.not_mem_nil _) nd hnd _ hchild hvalid

theorem root_walk_le (c : Circuit) (root i : Nat) (h : reachableInputIdx c root i) :
    ((i : ℤ) : WithBot ℤ) ≤ (computeInputLength c (c.nodes.length + 1) root []).1 := by
  obtain ⟨id, hreach, hinput⟩ := h
  have hvalid : (c.getNode id).isSome = true := by
    rw [hinput]
    rfl
  have hmem := reachable_mem_visited c root id hreach hvalid
  exact (computeInputLength_basic c _ root []).2.2.1 id i hmem (List.not_mem_nil _) hinput

theorem root_walk_attained (c : Circuit) (root : Nat) :
    (computeInputLength c (c.nodes.length + 1) root []).1 ≤ ((-1 : ℤ) : WithBot ℤ) ∨
    ∃ i, reachableInputIdx c root i ∧
      (computeInputLength c (c.nodes.length + 1) root []).1 = ((i : ℤ) : WithBot ℤ) := by
  rcases (computeInputLength_basic c _ root []).2.2.2 with h | h | ⟨x, i, hx, -, hinput, hr⟩
  · rw [h]
    exact .inl bot_le
  · rw [h]
    exact .inl (le_refl _)
  · refine .inr ⟨i, ⟨x, ?_, hinput⟩, hr⟩
    rcases (computeInputLength_basic c _ root []).2.1 x hx with hfalse | hreach
    · exact absurd hfalse (List.not_mem_nil _)
    · exact hreach

theorem rootFold_facts (c : Circuit) :
    ∀ (roots : List Nat) (acc : WithBot ℤ), ((-1 : ℤ) : WithBot ℤ) ≤ acc →
      (acc ≤ roots.foldl
        (fun acc root => max acc (computeInputLength c (c.nodes.length + 1) root []).1) acc) ∧
      (∀ r ∈ roots, ∀ i, reachableInputIdx c r i → ((i : ℤ) : WithBot ℤ) ≤
        roots.foldl
          (fun acc root => max acc (computeInputLength c (c.nodes.length + 1) root []).1) acc) ∧
      (roots.foldl
          (fun acc root => max acc (computeInputLength c (c.nodes.length + 1) root []).1) acc
            = acc ∨
       ∃ r ∈ roots, ∃ i, reachableInputIdx c r i ∧
         roots.foldl
           (fun acc root => max acc (computeInputLength c (c.nodes.length + 1) root []).1) acc
             = ((i : ℤ) : WithBot ℤ)) := by
  intro roots
  induction roots with
  | nil =>
    intro acc hacc
    exact ⟨le_refl _, fun r hr => absurd hr (List.not_mem_nil _), .inl rfl⟩
  | cons r0 roots ih =>
    intro acc hacc
    have hacc1 : ((-1 : ℤ) : WithBot ℤ) ≤
        max acc (computeInputLength c (c.nodes.length + 1) r0 []).1 :=
      le_trans hacc (le_max_left _ _)
    obtain ⟨E, B, D⟩ := ih (max acc (computeInputLength c (c.nodes.length + 1) r0 []).1) hacc1
    rw [List.foldl_cons]
    refine ⟨le_trans (le_max_left _ _) E, ?_, ?_⟩
    · intro r hr i hri
      rcases List.mem_cons.mp hr with rfl | hr
      · exact le_trans (le_trans (root_walk_le c r i hri) (le_max_right _ _)) E
      · exact B r hr i hri
    · rcases D with hD | ⟨r, hr, i, hri, hFi⟩
      · rcases root_walk_attained c r0 with hle | ⟨i, hri, hattain⟩
        · refine .inl (hD.trans ?_)
          exact max_eq_left (le_trans hle hacc)
        · rcases max_choice acc (computeInputLength c (c.nodes.length + 1) r0 []).1 with hm | hm
          · exact .inl (hD.trans hm)
          · exact .inr ⟨r0, List.mem_cons_self _ _, i, hri, hD.trans (hm.trans hattain)⟩
      · exact .inr ⟨r, List.mem_cons_of_mem _ hr, i, hri, hFi⟩

/-- C6: `inputLength` equals 1 plus the highest `Input.index` reachable from any
root node (the walk descending through gate children, a feedback node's driving
node, a composite's input bindings, and a sub-circuit-output's composite, with a
per-call visited set making feedback cycles terminate), and equals 0 when no
`Input` node is reachable. -/
theorem claim6_inputLength_reachable (c : Circuit) :
    ((¬ ∃ r i, r ∈ c.rootNodes ∧ reachableInputIdx c r i) → c.inputLength = 0) ∧
    (∀ r i, r ∈ c.rootNodes → reachableInputIdx c r i →
      ∃ m rm, rm ∈ c.rootNodes ∧ reachableInputIdx c rm m ∧ i ≤ m ∧
        c.inputLength = m + 1) := by
  obtain ⟨hE, hB, hD⟩ := rootFold_facts c c.rootNodes (((-1 : ℤ) : WithBot ℤ)) (le_refl _)
  constructor
  · intro hno
    rcases hD with hD | ⟨r, hr, i, hri, -⟩
    · rw [Circuit.inputLength, hD]
      simp
    · exact absurd ⟨r, i, hr, hri⟩ hno
  · intro r i hr hri
    have hge : ((i : ℤ) : WithBot ℤ) ≤ c.rootNodes.foldl
        (fun acc root => max acc (computeInputLength c (c.nodes.length + 1) root []).1)
        (((-1 : ℤ) : WithBot ℤ)) := hB r hr i hri
    rcases hD with hD | ⟨rm, hrm, m, hrim, hFm⟩
    · rw [hD] at hge
      exfalso
      have : (i : ℤ) ≤ (-1 : ℤ) := by exact_mod_cast hge
      omega
    · refine ⟨m, rm, hrm, hrim, ?_, ?_⟩
      · rw [hFm] at hge
        have : (i : ℤ) ≤ (m : ℤ) := by exact_mod_cast hge
        omega
      · rw [Circuit.inputLength, hFm]
        have hnlt : ¬ (((m : ℤ) : WithBot ℤ) < 0) := by
          refine not_lt.mpr ?_
          exact_mod_cast Int.ofNat_nonneg m
        rw [if_neg hnlt]
        have hunbot : (((m : ℤ) : WithBot ℤ)).unbot' 0 = (m : ℤ) := rfl
        rw [hunbot]
        omega

/-- Witness for C6: `w5` (a literal output, no reachable input) has
`inputLength = 0`; `w4` (an AND of `Input[0]` and `Input[1]`) attains its
`inputLength` at a reachable input index. -/
theorem claim6_inputLength_reachable_witness :
    w5.inputLength = 0 ∧
    (∃ m rm, rm ∈ w4.rootNodes ∧ reachableInputIdx w4 rm m ∧ 0 ≤ m ∧
      w4.inputLength = m + 1) := by
  constructor
  · refine (claim6_inputLength_reachable w5).1 ?_
    rintro ⟨r, i, hr, id, hreach, hinput⟩
    have hr0 : r = 0 := by simpa [w5] using hr
    subst hr0
    have hid : id = 0 := by
      rcases (Relation.ReflTransGen.cases_head hreach) with rfl | ⟨b, hedge, -⟩
      · rfl
      · obtain ⟨nd, hnd, hchild⟩ := hedge
        have hnd0 : nd = NodeSpec.literal 7 := by
          have : (some nd : Option (NodeSpec Circuit)) = some (NodeSpec.literal 7) := by
            rw [← hnd]
            rfl
          injection this
        subst hnd0
        exact absurd hchild (List.not_mem_nil _)
    subst hid
    have : (some (NodeSpec.literal 7) : Option (NodeSpec Circuit))
        = some (NodeSpec.input i) := by
      rw [← hinput]
      rfl
    injection this with hcontra
    exact NodeSpec.noConfusion hcontra
  · exact (claim6_inputLength_reachable w4).2 2 0 (by simp [w4])
      ⟨0, Relation.ReflTransGen.single
        ⟨NodeSpec.gate "AND" [0, 1] 0 0, rfl, by simp [NodeSpec.walkChildren]⟩, rfl⟩

end CircuitProj
